import Mathlib

/-!
# Verification of the xmtp.mx conversation synchronization core

A shallow embedding, in Lean 4, of the reconciliation-store, projection,
recipient-parsing, envelope-codec and startup-gating logic of the xmtp.mx
webmail client, together with proofs of the specified properties.

JavaScript semantics used by the embedding:
* JS strings are modelled as Lean `String` (lists of Unicode scalar values);
  `String.prototype.trim` / `toLowerCase` are modelled on the character list
  (`toLowerCase` at the ASCII level).
* JS `Array.prototype.sort` with a consistent comparator is a stable sort by
  the comparator's preorder; it is modelled by `List.insertionSort`, which is
  stable in the same sense.
* JS objects keyed by strings (`Record<string, T>`) are modelled as functions
  `String → Option T` (or with a `[]`-default where the code uses `?? []`).
* A JS `Number(bigint)` conversion rounds to the nearest IEEE-754 double
  (ties to even); it is modelled exactly on integers by `jsNumber`.
-/

open scoped List

/-! ## JavaScript string helpers -/

/-- The character class removed by `String.prototype.trim`
(ECMAScript WhiteSpace and LineTerminator code points). -/
def jsWhitespaceChars : List Char :=
  ['\t', '\n', '\x0b', '\x0c', '\r', ' ', ' ', ' ',
   ' ', ' ', ' ', ' ', ' ', ' ', ' ',
   ' ', ' ', ' ', ' ', ' ', ' ', ' ',
   ' ', '　', '﻿']

/-- Is `c` JS whitespace? -/
def isJsWhitespace (c : Char) : Bool := jsWhitespaceChars.contains c

/-- `String.prototype.trim` on the character list. -/
def jsTrimChars (l : List Char) : List Char :=
  ((l.dropWhile isJsWhitespace).reverse.dropWhile isJsWhitespace).reverse

/-- `String.prototype.trim`. -/
def jsTrim (s : String) : String := ⟨jsTrimChars s.data⟩

/-- `String.prototype.toLowerCase` (ASCII case mapping). -/
def jsToLower (s : String) : String := ⟨s.data.map Char.toLower⟩

/-- Is `needle` a prefix of `hay`? (Bool-valued, executable.) -/
def isPrefixOfChars : List Char → List Char → Bool
  | [], _ => true
  | _ :: _, [] => false
  | a :: as, b :: bs => a == b && isPrefixOfChars as bs

/-- `String.prototype.includes`: does `hay` contain `needle` as a
contiguous substring? -/
def containsSubChars (needle : List Char) : List Char → Bool
  | [] => isPrefixOfChars needle []
  | c :: t => isPrefixOfChars needle (c :: t) || containsSubChars needle t

theorem isPrefixOfChars_iff (needle hay : List Char) :
    isPrefixOfChars needle hay = true ↔ needle <+: hay := by
  induction needle generalizing hay with
  | nil => simp [isPrefixOfChars]
  | cons a as ih =>
    cases hay with
    | nil => simp [isPrefixOfChars]
    | cons b bs =>
      simp only [isPrefixOfChars, Bool.and_eq_true, beq_iff_eq, ih,
        List.cons_prefix_cons]

theorem containsSubChars_iff (needle hay : List Char) :
    containsSubChars needle hay = true ↔ needle <:+: hay := by
  induction hay with
  | nil =>
    simp only [containsSubChars, isPrefixOfChars_iff, List.prefix_nil,
      List.infix_nil]
  | cons c t ih =>
    simp only [containsSubChars, Bool.or_eq_true, isPrefixOfChars_iff, ih,
      List.infix_cons_iff]

/-! ## Message model and the store's `addMessages` operation

`DecodedMessage` models the fields of the XMTP SDK message object that the
client reads: the message id (the deduplication key), the conversation id,
the sender's inbox id, the content, and the `sentAtNs` nanosecond
timestamp (a JS `BigInt`, modelled by `Int`). -/

structure DecodedMessage where
  id : String
  conversationId : String
  senderInboxId : String
  content : String
  sentAtNs : Int
deriving DecidableEq

/-- The ascending `sentAtNs` preorder used by the `merged.sort` comparator
`(a, b) => Number(a.sentAtNs - b.sentAtNs)` (the sign of a nonzero BigInt
difference survives the `Number` conversion exactly). -/
def msgLe (a b : DecodedMessage) : Prop := a.sentAtNs ≤ b.sentAtNs

/-- Strict version of `msgLe`. -/
def msgLt (a b : DecodedMessage) : Prop := a.sentAtNs < b.sentAtNs

instance : DecidableRel msgLe := fun a b =>
  inferInstanceAs (Decidable (a.sentAtNs ≤ b.sentAtNs))

instance : DecidableRel msgLt := fun a b =>
  inferInstanceAs (Decidable (a.sentAtNs < b.sentAtNs))

instance : IsTotal DecodedMessage msgLe := ⟨fun _ _ => Int.le_total _ _⟩

instance : IsTrans DecodedMessage msgLe := ⟨fun _ _ _ h h' => le_trans h h'⟩

instance : IsAntisymm DecodedMessage msgLt :=
  ⟨fun _ _ h h' => absurd h' (lt_asymm h)⟩

/-- One step of the dedup loop body of `addMessages`:
`if (merged.find((m) => m.id === msg.id)) continue; merged.push(msg);`. -/
def dedupPush (merged : List DecodedMessage) (msg : DecodedMessage) :
    List DecodedMessage :=
  if merged.any (fun m => m.id == msg.id) then merged else merged ++ [msg]

/-- The per-conversation body of `addMessages`: dedup the incoming batch by
id against the existing sequence, append the new ones, and re-sort
ascending by `sentAtNs` (stable sort, as JS `Array.prototype.sort`). -/
def mergeMessages (existing incoming : List DecodedMessage) :
    List DecodedMessage :=
  List.insertionSort msgLe (incoming.foldl dedupPush existing)

/-- `addMessages(conversationId, incoming)` on the `messagesByConversation`
map (`Record<string, DecodedMessage[]>` with `?? []` default, modelled as a
total function into lists). -/
def addMessages (prev : String → List DecodedMessage)
    (conversationId : String) (incoming : List DecodedMessage) :
    String → List DecodedMessage :=
  fun c =>
    if c = conversationId then mergeMessages (prev conversationId) incoming
    else prev c

/-- Folding a sequence of `addMessages` calls for one conversation over a
starting map: models delivering the same message set in several batches. -/
def applyBatches (conversationId : String)
    (prev : String → List DecodedMessage)
    (batches : List (List DecodedMessage)) : String → List DecodedMessage :=
  batches.foldl (fun st b => addMessages st conversationId b) prev

/-- The initially empty store. -/
def emptyMessages : String → List DecodedMessage := fun _ => []

/-! ### Lemmas about `addMessages` -/

theorem dedupPush_of_mem {merged : List DecodedMessage}
    {msg : DecodedMessage} (h : msg.id ∈ merged.map DecodedMessage.id) :
    dedupPush merged msg = merged := by
  have : merged.any (fun m => m.id == msg.id) = true := by
    simp only [List.any_eq_true, beq_iff_eq]
    obtain ⟨x, hx, hid⟩ := List.mem_map.mp h
    exact ⟨x, hx, hid⟩
  simp [dedupPush, this]

theorem foldl_dedupPush_of_new :
    ∀ (incoming existing : List DecodedMessage),
      (∀ m ∈ incoming, m.id ∉ existing.map DecodedMessage.id) →
      (incoming.map DecodedMessage.id).Nodup →
      incoming.foldl dedupPush existing = existing ++ incoming
  | [], existing, _, _ => by simp
  | msg :: rest, existing, hdisj, hnodup => by
    have hnotmem : msg.id ∉ existing.map DecodedMessage.id :=
      hdisj msg (List.mem_cons_self _ _)
    have hstep : dedupPush existing msg = existing ++ [msg] := by
      have : existing.any (fun m => m.id == msg.id) = false := by
        simp only [List.any_eq_false, beq_iff_eq]
        intro x hx hid
        exact hnotmem (hid ▸ List.mem_map_of_mem DecodedMessage.id hx)
      simp [dedupPush, this]
    have hmap : (rest.map DecodedMessage.id).Nodup :=
      (List.nodup_cons.mp (by simpa using hnodup)).2
    have hhd : msg.id ∉ rest.map DecodedMessage.id :=
      (List.nodup_cons.mp (by simpa using hnodup)).1
    have hdisj' : ∀ m ∈ rest, m.id ∉ (existing ++ [msg]).map DecodedMessage.id := by
      intro m hm
      simp only [List.map_append, List.mem_append, List.map_cons, List.map_nil,
        List.mem_singleton, not_or]
      refine ⟨hdisj m (List.mem_cons_of_mem _ hm), ?_⟩
      intro hinrest
      exact hhd (hinrest ▸ List.mem_map_of_mem DecodedMessage.id hm)
    calc (msg :: rest).foldl dedupPush existing
        = rest.foldl dedupPush (existing ++ [msg]) := by rw [List.foldl_cons, hstep]
      _ = (existing ++ [msg]) ++ rest := foldl_dedupPush_of_new rest _ hdisj' hmap
      _ = existing ++ msg :: rest := by simp

theorem mergeMessages_eq_sort_of_new {existing incoming : List DecodedMessage}
    (hdisj : ∀ m ∈ incoming, m.id ∉ existing.map DecodedMessage.id)
    (hnodup : (incoming.map DecodedMessage.id).Nodup) :
    mergeMessages existing incoming =
      List.insertionSort msgLe (existing ++ incoming) := by
  rw [mergeMessages, foldl_dedupPush_of_new incoming existing hdisj hnodup]

/-- Per-conversation view of a batched sequence of `addMessages` calls. -/
def mergeBatches (st : List DecodedMessage)
    (batches : List (List DecodedMessage)) : List DecodedMessage :=
  batches.foldl mergeMessages st

theorem applyBatches_apply (conversationId : String)
    (batches : List (List DecodedMessage)) :
    ∀ prev : String → List DecodedMessage,
      applyBatches conversationId prev batches conversationId =
        mergeBatches (prev conversationId) batches := by
  induction batches with
  | nil => intro prev; rfl
  | cons b bs ih =>
    intro prev
    show applyBatches conversationId (addMessages prev conversationId b) bs
        conversationId = _
    rw [ih]
    simp [addMessages, mergeBatches]

theorem mergeBatches_perm :
    ∀ (batches : List (List DecodedMessage)) (st : List DecodedMessage),
      ((st ++ batches.flatten).map DecodedMessage.id).Nodup →
      mergeBatches st batches ~ st ++ batches.flatten
  | [], st, _ => by simp [mergeBatches]
  | b :: bs, st, hnodup => by
    have hnodup' : ((st ++ b).map DecodedMessage.id ++
        (bs.flatten.map DecodedMessage.id)).Nodup := by
      simpa [List.flatten, List.map_append, List.append_assoc] using hnodup
    have hsb : ((st ++ b).map DecodedMessage.id).Nodup :=
      (List.nodup_append.mp hnodup').1
    have hdisj : ∀ m ∈ b, m.id ∉ st.map DecodedMessage.id := by
      have := (List.nodup_append.mp (by simpa [List.map_append] using hsb) :
        (st.map DecodedMessage.id).Nodup ∧ (b.map DecodedMessage.id).Nodup ∧ _)
      intro m hm hmem
      exact this.2.2 hmem (List.mem_map_of_mem DecodedMessage.id hm)
    have hbn : (b.map DecodedMessage.id).Nodup :=
      (List.nodup_append.mp (by simpa [List.map_append] using hsb)).2.1
    have hstep : mergeMessages st b = List.insertionSort msgLe (st ++ b) :=
      mergeMessages_eq_sort_of_new hdisj hbn
    have hpermstep : mergeMessages st b ~ st ++ b := by
      rw [hstep]; exact List.perm_insertionSort msgLe (st ++ b)
    have hnodup'' : ((mergeMessages st b ++ bs.flatten).map DecodedMessage.id).Nodup := by
      have hp : (mergeMessages st b ++ bs.flatten).map DecodedMessage.id ~
          ((st ++ b) ++ bs.flatten).map DecodedMessage.id :=
        (hpermstep.append_right bs.flatten).map DecodedMessage.id
      exact hp.nodup_iff.mpr (by
        simpa [List.map_append, List.append_assoc] using hnodup')
    calc mergeBatches st (b :: bs)
        = mergeBatches (mergeMessages st b) bs := rfl
      _ ~ mergeMessages st b ++ bs.flatten := mergeBatches_perm bs _ hnodup''
      _ ~ (st ++ b) ++ bs.flatten := hpermstep.append_right bs.flatten
      _ = st ++ (b :: bs).flatten := by simp [List.append_assoc]

theorem mergeBatches_sorted :
    ∀ (batches : List (List DecodedMessage)) (st : List DecodedMessage),
      List.Sorted msgLe st → List.Sorted msgLe (mergeBatches st batches)
  | [], _, h => h
  | _ :: bs, _, _ =>
    mergeBatches_sorted bs _ (List.sorted_insertionSort msgLe _)

theorem pairwise_msgLt_of_le_of_nodup {l : List DecodedMessage}
    (hle : List.Pairwise msgLe l)
    (hts : (l.map DecodedMessage.sentAtNs).Nodup) :
    List.Pairwise msgLt l := by
  induction l with
  | nil => exact List.Pairwise.nil
  | cons a t ih =>
    rcases List.pairwise_cons.mp hle with ⟨hale, hle'⟩
    have hne : List.Pairwise
        (fun x y : DecodedMessage => x.sentAtNs ≠ y.sentAtNs) (a :: t) :=
      List.pairwise_map.mp hts
    rcases List.pairwise_cons.mp hne with ⟨hane, _⟩
    have hts' : (t.map DecodedMessage.sentAtNs).Nodup :=
      (List.nodup_cons.mp (by simpa using hts)).2
    exact List.pairwise_cons.mpr
      ⟨fun b hb => lt_of_le_of_ne (hale b hb) (hane b hb), ih hle' hts'⟩

/-! ### Claims C1, C2, C10 -/

/-- C1 counterexample input: two distinct messages sharing a message id but
with distinct `sentAtNs` timestamps. -/
def cexMsgA : DecodedMessage :=
  { id := "a", conversationId := "c", senderInboxId := "s",
    content := "hello", sentAtNs := 1 }

/-- Second C1 counterexample message: same id as `cexMsgA`, later timestamp. -/
def cexMsgB : DecodedMessage :=
  { id := "a", conversationId := "c", senderInboxId := "s",
    content := "world", sentAtNs := 2 }

/-- C1, counterexample to the claim as stated: the claim quantifies over
message sets constrained only by pairwise-distinct `sentAtNanos`; for two
distinct messages that share an id but have distinct timestamps, delivering
them in the two possible orders yields different final sequences (the id
dedup keeps whichever arrived first), so the appends do not converge. -/
theorem addMessages_order_convergence_cex :
    ([cexMsgA, cexMsgB].map DecodedMessage.sentAtNs).Nodup ∧
      applyBatches "c" emptyMessages [[cexMsgA], [cexMsgB]] "c" ≠
        applyBatches "c" emptyMessages [[cexMsgB], [cexMsgA]] "c" := by
  constructor
  · decide
  · decide

/-- C1 (amended): for every conversation id and every finite set of messages
with pairwise-distinct `sentAtNanos` timestamps *and pairwise-distinct ids*,
applying `addMessages` to an initially empty per-conversation sequence, in
any permutation and any batching of that set, yields the same final
sequence: the set ordered ascending by `sentAtNanos`. -/
theorem addMessages_order_convergence (conversationId : String)
    (batches : List (List DecodedMessage)) (S : List DecodedMessage)
    (hperm : List.Perm batches.flatten S)
    (hids : (S.map DecodedMessage.id).Nodup)
    (hts : (S.map DecodedMessage.sentAtNs).Nodup) :
    applyBatches conversationId emptyMessages batches conversationId =
      List.insertionSort msgLe S ∧
    List.Pairwise msgLt
      (applyBatches conversationId emptyMessages batches conversationId) := by
  rw [applyBatches_apply]
  show mergeBatches ([] : List DecodedMessage) batches = _ ∧ _
  have hjoinids : (batches.flatten.map DecodedMessage.id).Nodup :=
    ((hperm.map DecodedMessage.id).nodup_iff).mpr hids
  have hL : List.Perm (mergeBatches [] batches) ([] ++ batches.flatten) :=
    mergeBatches_perm batches [] (by simpa using hjoinids)
  have hL' : List.Perm (mergeBatches [] batches) batches.flatten := by
    simpa using hL
  have hLS : List.Perm (mergeBatches [] batches) S := hL'.trans hperm
  have hsortedLe : List.Sorted msgLe (mergeBatches [] batches) :=
    mergeBatches_sorted batches [] (List.sorted_nil)
  have htsL : ((mergeBatches [] batches).map DecodedMessage.sentAtNs).Nodup :=
    ((hLS.map DecodedMessage.sentAtNs).nodup_iff).mpr hts
  have hsortedLt : List.Pairwise msgLt (mergeBatches [] batches) :=
    pairwise_msgLt_of_le_of_nodup hsortedLe htsL
  have hRperm : List.Perm (List.insertionSort msgLe S) S :=
    List.perm_insertionSort msgLe S
  have hRle : List.Sorted msgLe (List.insertionSort msgLe S) :=
    List.sorted_insertionSort msgLe S
  have hRts : ((List.insertionSort msgLe S).map DecodedMessage.sentAtNs).Nodup :=
    ((hRperm.map DecodedMessage.sentAtNs).nodup_iff).mpr hts
  have hRlt : List.Pairwise msgLt (List.insertionSort msgLe S) :=
    pairwise_msgLt_of_le_of_nodup hRle hRts
  exact ⟨List.eq_of_perm_of_sorted (hLS.trans hRperm.symm) hsortedLt hRlt,
    hsortedLt⟩

/-- Concrete batch list for the C1 witness. -/
def witBatches : List (List DecodedMessage) :=
  [[⟨"m2", "c", "s", "two", 20⟩],
   [⟨"m3", "c", "s", "three", 30⟩, ⟨"m1", "c", "s", "one", 10⟩]]

/-- Concrete message set for the C1 witness. -/
def witSet : List DecodedMessage :=
  [⟨"m1", "c", "s", "one", 10⟩, ⟨"m2", "c", "s", "two", 20⟩,
   ⟨"m3", "c", "s", "three", 30⟩]

/-- C1 witness: a concrete three-message set delivered in two batches in a
scrambled order sorts into ascending timestamp order. -/
theorem addMessages_order_convergence_witness :
    applyBatches "c" emptyMessages witBatches "c" =
      List.insertionSort msgLe witSet ∧
    List.Pairwise msgLt (applyBatches "c" emptyMessages witBatches "c") :=
  addMessages_order_convergence "c" witBatches witSet
    (by decide) (by decide) (by decide)

/-- C2: if a message with `m`'s id is already present in a conversation's
sequence (a sequence satisfying the store invariant: ascending order,
no duplicate ids), then appending `m` via `addMessages` any number of times
leaves the whole map unchanged, and the sequence contains exactly one
message with that id, in the same position as before. -/
theorem addMessages_idempotent (prev : String → List DecodedMessage)
    (conversationId : String) (m : DecodedMessage) (n : Nat)
    (hsorted : List.Sorted msgLe (prev conversationId))
    (hnodup : ((prev conversationId).map DecodedMessage.id).Nodup)
    (hmem : m.id ∈ (prev conversationId).map DecodedMessage.id) :
    (fun p => addMessages p conversationId [m])^[n] prev = prev ∧
    (((fun p => addMessages p conversationId [m])^[n] prev conversationId).filter
        (fun x => x.id == m.id)).length = 1 := by
  have hfix : addMessages prev conversationId [m] = prev := by
    funext c
    by_cases hc : c = conversationId
    · subst hc
      have h1 : addMessages prev c [m] c = mergeMessages (prev c) [m] := by
        simp [addMessages]
      have h2 : [m].foldl dedupPush (prev c) = prev c := by
        rw [List.foldl_cons, List.foldl_nil, dedupPush_of_mem hmem]
      rw [h1, mergeMessages, h2]
      exact hsorted.insertionSort_eq
    · simp [addMessages, hc]
  have hiter : (fun p => addMessages p conversationId [m])^[n] prev = prev :=
    Function.iterate_fixed hfix n
  refine ⟨hiter, ?_⟩
  rw [hiter]
  have hcount : ((prev conversationId).map DecodedMessage.id).count m.id = 1 :=
    List.count_eq_one_of_mem hnodup hmem
  calc ((prev conversationId).filter (fun x => x.id == m.id)).length
      = (prev conversationId).countP (fun x => x.id == m.id) :=
        (List.countP_eq_length_filter _ _).symm
    _ = ((prev conversationId).map DecodedMessage.id).count m.id := by
        rw [List.count, List.countP_map]
        rfl
    _ = 1 := hcount

/-- C2 witness at a concrete one-element store. -/
theorem addMessages_idempotent_witness :
    (fun p => addMessages p "c" [cexMsgA])^[3] (fun _ => [cexMsgA]) =
      (fun _ => [cexMsgA]) ∧
    (((fun p => addMessages p "c" [cexMsgA])^[3] (fun _ => [cexMsgA]) "c").filter
        (fun x => x.id == cexMsgA.id)).length = 1 :=
  addMessages_idempotent (fun _ => [cexMsgA]) "c" cexMsgA 3
    (by simp) (by decide) (by decide)

/-- C10: `addMessages(conversationId, incoming)` leaves every other
conversation's message sequence untouched. -/
theorem addMessages_frame (prev : String → List DecodedMessage)
    (conversationId c : String) (incoming : List DecodedMessage)
    (h : c ≠ conversationId) :
    addMessages prev conversationId incoming c = prev c := by
  simp [addMessages, h]

/-- C10 witness at concrete distinct conversation ids. -/
theorem addMessages_frame_witness :
    addMessages (fun _ => [cexMsgA]) "c" [cexMsgB] "other" =
      (fun _ => [cexMsgA]) "other" :=
  addMessages_frame (fun _ => [cexMsgA]) "c" "other" [cexMsgB] (by decide)

/-! ## Conversation summaries and `upsertConversationSummary`

`Dm` models the SDK conversation object fields the client reads (`id`,
`createdAtNs`). `XmtpConversationSummary` is the store record (the constant
`kind: 'xmtp'` discriminator is omitted). A partial update
(`Omit<XmtpConversationSummary, 'id' | 'kind'>`) is modelled by
`SummaryPatch`: the outer `Option` of each optional field is JS key
presence (spread semantics: an absent key does not overwrite), and the
inner `Option` is the possibly-`undefined` value. -/

structure Dm where
  id : String
  createdAtNs : Option Int
deriving DecidableEq

structure XmtpConversationSummary where
  id : String
  conversation : Dm
  peerInboxId : Option String
  peerAddress : Option String
  lastMessage : Option DecodedMessage
deriving DecidableEq

structure SummaryPatch where
  conversation : Dm
  peerInboxId : Option (Option String) := none
  peerAddress : Option (Option String) := none
  lastMessage : Option (Option DecodedMessage) := none

/-- JS object-spread on one field: a present key (even one holding
`undefined`) overwrites, an absent key keeps the existing value. -/
def patchField {α : Type} (patch : Option (Option α)) (existing : Option α) :
    Option α :=
  match patch with
  | some v => v
  | none => existing

/-- `upsertConversationSummary(summary)` on the `conversationsById` map:
`{...prev, [id]: {kind: 'xmtp', id, ...restExisting, ...summary}}` where
`restExisting` is the existing record minus `kind`/`id`. -/
def upsertConversationSummary
    (prev : String → Option XmtpConversationSummary)
    (summary : SummaryPatch) : String → Option XmtpConversationSummary :=
  let id := summary.conversation.id
  let existing := prev id
  fun c =>
    if c = id then
      some
        { id := id
          conversation := summary.conversation
          peerInboxId :=
            patchField summary.peerInboxId
              (match existing with
               | some e => e.peerInboxId
               | none => none)
          peerAddress :=
            patchField summary.peerAddress
              (match existing with
               | some e => e.peerAddress
               | none => none)
          lastMessage :=
            patchField summary.lastMessage
              (match existing with
               | some e => e.lastMessage
               | none => none) }
    else prev c

/-! ### Claim C3 -/

/-- C3: upserting a partial record for conversation `X` that carries only a
new `lastMessage` after an earlier upsert of `X` that resolved the peer
display address yields a stored record with both fields set; in general a
partial update never erases a previously merged field it does not carry. -/
theorem upsertConversationSummary_merge
    (prev : String → Option XmtpConversationSummary)
    (conv conv' : Dm) (addr : String) (M : DecodedMessage)
    (hid : conv'.id = conv.id) :
    (∃ r,
      upsertConversationSummary
          (upsertConversationSummary prev
            { conversation := conv, peerAddress := some (some addr) })
          { conversation := conv', lastMessage := some (some M) } conv.id =
        some r ∧
      r.peerAddress = some addr ∧ r.lastMessage = some M) ∧
    (∀ (p : SummaryPatch) (st : String → Option XmtpConversationSummary)
        (e : XmtpConversationSummary),
      st p.conversation.id = some e →
      ∃ r, upsertConversationSummary st p p.conversation.id = some r ∧
        (p.peerAddress = none → r.peerAddress = e.peerAddress) ∧
        (p.peerInboxId = none → r.peerInboxId = e.peerInboxId) ∧
        (p.lastMessage = none → r.lastMessage = e.lastMessage)) := by
  constructor
  · have key : upsertConversationSummary
        (upsertConversationSummary prev
          { conversation := conv, peerAddress := some (some addr) })
        { conversation := conv', lastMessage := some (some M) } conv.id =
        some { id := conv'.id, conversation := conv',
               peerInboxId :=
                 match prev conv.id with
                 | some e => e.peerInboxId
                 | none => none,
               peerAddress := some addr, lastMessage := some M } := by
      simp only [upsertConversationSummary, hid, patchField]
      simp
    exact ⟨_, key, rfl, rfl⟩
  · intro p st e he
    have key : upsertConversationSummary st p p.conversation.id =
        some { id := p.conversation.id, conversation := p.conversation,
               peerInboxId := patchField p.peerInboxId e.peerInboxId,
               peerAddress := patchField p.peerAddress e.peerAddress,
               lastMessage := patchField p.lastMessage e.lastMessage } := by
      simp only [upsertConversationSummary, he]
      simp
    refine ⟨_, key, ?_, ?_, ?_⟩
    · intro hp
      simp [hp, patchField]
    · intro hp
      simp [hp, patchField]
    · intro hp
      simp [hp, patchField]

/-- C3 witness at a concrete conversation and message. -/
theorem upsertConversationSummary_merge_witness :
    (∃ r,
      upsertConversationSummary
          (upsertConversationSummary (fun _ => none)
            { conversation := ⟨"x", none⟩, peerAddress := some (some "0xabc") })
          { conversation := ⟨"x", none⟩,
            lastMessage := some (some cexMsgA) } "x" =
        some r ∧
      r.peerAddress = some "0xabc" ∧ r.lastMessage = some cexMsgA) ∧
    (∀ (p : SummaryPatch) (st : String → Option XmtpConversationSummary)
        (e : XmtpConversationSummary),
      st p.conversation.id = some e →
      ∃ r, upsertConversationSummary st p p.conversation.id = some r ∧
        (p.peerAddress = none → r.peerAddress = e.peerAddress) ∧
        (p.peerInboxId = none → r.peerInboxId = e.peerInboxId) ∧
        (p.lastMessage = none → r.lastMessage = e.lastMessage)) :=
  upsertConversationSummary_merge (fun _ => none)
    ⟨"x", none⟩ ⟨"x", none⟩ "0xabc" cexMsgA rfl

/-! ## Recipient parsing (`parseRecipient`) -/

/-- `String.prototype.lastIndexOf` for a single character (index of the
last occurrence, if any). -/
def lastIndexOfChar (c : Char) : List Char → Option Nat
  | [] => none
  | x :: xs =>
    match lastIndexOfChar c xs with
    | some i => some (i + 1)
    | none => if x == c then some 0 else none

/-- The `Recipient` tagged union returned by `parseRecipient`. -/
inductive Recipient
  | xmtp (peer : String)
  | smtp (email : String)
  | invalid (error : String)
deriving DecidableEq

/-- `parseRecipient(input)`: trim; empty → invalid; no `@` → xmtp peer;
split on the last `@`; empty local-part or domain → invalid; domain
(lowercased) equal to the reserved `xmtp.mx` suffix → xmtp with the
local-part; any other domain → smtp with the full trimmed input. -/
def parseRecipient (input : String) : Recipient :=
  let trimmed := jsTrimChars input.data
  if trimmed.isEmpty then .invalid "Recipient is required."
  else
    match lastIndexOfChar '@' trimmed with
    | none => .xmtp ⟨trimmed⟩
    | some atIdx =>
      let localPart := jsTrimChars (trimmed.take atIdx)
      let domain := (jsTrimChars (trimmed.drop (atIdx + 1))).map Char.toLower
      if localPart.isEmpty || domain.isEmpty then
        .invalid "Invalid email address."
      else if domain = "xmtp.mx".data then .xmtp ⟨localPart⟩
      else .smtp ⟨trimmed⟩

/-- C4: recipient classification. A reserved-domain address maps to the
direct (`xmtp`) variant carrying the local-part; a bare identifier maps to
the direct variant carrying the literal input; the empty string is
invalid; a foreign domain maps to the `smtp` variant, which is
distinguishable from both the direct and the invalid variants. -/
theorem parseRecipient_classification :
    parseRecipient "alice.eth@xmtp.mx" = .xmtp "alice.eth" ∧
    parseRecipient "0xABCDEF0123456789000000000000000000000001" =
      .xmtp "0xABCDEF0123456789000000000000000000000001" ∧
    parseRecipient "" = .invalid "Recipient is required." ∧
    parseRecipient "someone@gmail.com" = .smtp "someone@gmail.com" ∧
    (∀ p, Recipient.smtp "someone@gmail.com" ≠ Recipient.xmtp p) ∧
    (∀ e, Recipient.smtp "someone@gmail.com" ≠ Recipient.invalid e) := by
  refine ⟨by decide, by decide, by decide, by decide, ?_, ?_⟩
  · intro p h
    exact Recipient.noConfusion h
  · intro e h
    exact Recipient.noConfusion h

/-! ## Startup gating (`initializeXmtpClient`)

The synchronous guard prefix of `initializeXmtpClient`, as a pure decision
function over the component state it reads. The surrounding component also
tracks the thirdweb client-ID validation status
(`thirdwebClientIdStatus`); it is carried in the state so that claims about
it can be stated, but the guard itself never reads it. -/

inductive ThirdwebClientIdStatus
  | missing
  | checking
  | valid
  | invalid
deriving DecidableEq

structure XmtpInitState where
  thirdwebClientPresent : Bool
  thirdwebClientIdStatus : ThirdwebClientIdStatus
  activeWalletConnected : Bool
  isWasmInitialized : Bool
  xmtpClientReady : Bool
  xmtpLoading : Bool
deriving DecidableEq

inductive XmtpInitStep
  | skippedMissingThirdwebClient
  | skippedMissingWallet
  | skippedWasmNotReady
  | skippedClientAlreadyInitialized
  | skippedAlreadyLoading
  | proceedToInitializing
deriving DecidableEq

/-- The guard chain of `initializeXmtpClient`: each early `return` is a
skip step; falling through to `setXmtpLoading(true)` is the transition to
the initializing state. -/
def initializeXmtpClient (s : XmtpInitState) : XmtpInitStep :=
  if !s.thirdwebClientPresent then .skippedMissingThirdwebClient
  else if !s.activeWalletConnected then .skippedMissingWallet
  else if !s.isWasmInitialized then .skippedWasmNotReady
  else if s.xmtpClientReady then .skippedClientAlreadyInitialized
  else if s.xmtpLoading then .skippedAlreadyLoading
  else .proceedToInitializing

/-- C9 counterexample state: the thirdweb client object is configured but
its client ID has been found invalid by the validation probe. -/
def cexInitState : XmtpInitState :=
  { thirdwebClientPresent := true,
    thirdwebClientIdStatus := ThirdwebClientIdStatus.invalid,
    activeWalletConnected := true, isWasmInitialized := true,
    xmtpClientReady := false, xmtpLoading := false }

/-- C9, counterexample to the claim as stated: the initialization step
proceeds to the initializing state even though the identity-provider
client ID has not been validated as valid (it is `invalid` here) — the
guard only checks that a thirdweb client instance exists. -/
theorem initializeXmtpClient_gate_cex :
    initializeXmtpClient cexInitState = XmtpInitStep.proceedToInitializing ∧
    cexInitState.thirdwebClientIdStatus ≠ ThirdwebClientIdStatus.valid := by
  decide

/-- C9 (amended): the transition to initializing happens only when the
security module is ready, a thirdweb client instance is configured
(rather than the client ID having been validated as valid), a wallet is
connected, and the client is not already ready or initializing. -/
theorem initializeXmtpClient_gate (s : XmtpInitState)
    (h : initializeXmtpClient s = XmtpInitStep.proceedToInitializing) :
    s.thirdwebClientPresent = true ∧ s.activeWalletConnected = true ∧
    s.isWasmInitialized = true ∧ s.xmtpClientReady = false ∧
    s.xmtpLoading = false := by
  cases s with
  | mk tc st w wasm ready loading =>
    cases tc <;> cases w <;> cases wasm <;> cases ready <;> cases loading <;>
      simp_all [initializeXmtpClient]

/-- The fully-ready state used as the C9 witness. -/
def okInitState : XmtpInitState :=
  { thirdwebClientPresent := true,
    thirdwebClientIdStatus := ThirdwebClientIdStatus.valid,
    activeWalletConnected := true, isWasmInitialized := true,
    xmtpClientReady := false, xmtpLoading := false }

/-- C9 witness at the fully-ready state. -/
theorem initializeXmtpClient_gate_witness :
    okInitState.thirdwebClientPresent = true ∧
    okInitState.activeWalletConnected = true ∧
    okInitState.isWasmInitialized = true ∧
    okInitState.xmtpClientReady = false ∧
    okInitState.xmtpLoading = false :=
  initializeXmtpClient_gate okInitState (by decide)

/-! ## Selection fallback (claim C8) -/

structure WelcomeConversationSummary where
  id : String
  subject : String
  preview : String
  body : String
  timestamp : Int
deriving DecidableEq

/-- `ConversationListItem = XmtpConversationSummary |
WelcomeConversationSummary` (discriminated by `kind`). -/
inductive ConversationListItem
  | xmtp (s : XmtpConversationSummary)
  | welcome (w : WelcomeConversationSummary)
deriving DecidableEq

/-- The `id` read by the selection effect. -/
def ConversationListItem.id : ConversationListItem → String
  | .xmtp s => s.id
  | .welcome w => w.id

/-- The selection-fallback effect as a pure function from the projected
list and the current selection to the next selection: empty list → no
selection; no selection → first item; selected id still present → keep;
otherwise → first item's id. -/
def nextSelectedConversationId (conversationList : List ConversationListItem)
    (selectedConversationId : Option String) : Option String :=
  if conversationList.isEmpty then none
  else
    match selectedConversationId with
    | none => conversationList.head?.map ConversationListItem.id
    | some sel =>
      if conversationList.any (fun item => item.id == sel) then some sel
      else conversationList.head?.map ConversationListItem.id

/-- C8: if the previously selected id no longer occurs in the projected
list, the selection falls back to the first item's id (no selection when
the list is empty), and the resulting selection never points at an item
absent from the list. -/
theorem nextSelectedConversationId_fallback
    (l : List ConversationListItem) (sel : String)
    (habs : sel ∉ l.map ConversationListItem.id) :
    nextSelectedConversationId l (some sel) =
      l.head?.map ConversationListItem.id ∧
    (l = [] → nextSelectedConversationId l (some sel) = none) ∧
    (∀ j, nextSelectedConversationId l (some sel) = some j →
      j ∈ l.map ConversationListItem.id) := by
  cases l with
  | nil => simp [nextSelectedConversationId]
  | cons a t =>
    have hany : (a :: t).any (fun item => item.id == sel) = false := by
      simp only [List.any_eq_false, beq_iff_eq]
      intro x hx hxe
      exact habs (hxe ▸ List.mem_map_of_mem ConversationListItem.id hx)
    refine ⟨?_, by simp, ?_⟩
    · simp [nextSelectedConversationId, hany]
    · intro j hj
      rw [show nextSelectedConversationId (a :: t) (some sel) =
          some a.id from by simp [nextSelectedConversationId, hany]] at hj
      rw [List.map_cons]
      exact (Option.some.inj hj) ▸ List.mem_cons_self _ _

/-- Concrete projected list for the C8 witness. -/
def witWelcomeItem : ConversationListItem :=
  ConversationListItem.welcome
    { id := "welcome-thread", subject := "Welcome to xmtp.mx",
      preview := "preview", body := "body", timestamp := 0 }

/-- C8 witness: a concrete list whose first item is the welcome thread and
a stale selection id that was filtered out. -/
theorem nextSelectedConversationId_fallback_witness :
    nextSelectedConversationId [witWelcomeItem] (some "gone") =
      [witWelcomeItem].head?.map ConversationListItem.id ∧
    ([witWelcomeItem] = ([] : List ConversationListItem) →
      nextSelectedConversationId [witWelcomeItem] (some "gone") = none) ∧
    (∀ j, nextSelectedConversationId [witWelcomeItem] (some "gone") = some j →
      j ∈ [witWelcomeItem].map ConversationListItem.id) :=
  nextSelectedConversationId_fallback [witWelcomeItem] "gone" (by decide)

/-! ## The conversation projection (`xmtpConversationList`)

The comparator of the projection sort runs each BigInt nanosecond
timestamp through JS `Number(...)`, which rounds to the nearest IEEE-754
double (ties to even). Integers of magnitude above `2^53` are not all
representable, so distinct timestamps can collapse to the same key.
`jsNumber` models the conversion exactly (for any magnitude below the
double overflow threshold, far beyond 64-bit timestamps). -/

/-- `2^53`: integers below this bound are exactly representable. -/
def f64SignificandBound : Nat := 9007199254740992

/-- The power-of-two spacing of representable doubles at magnitude `n`:
the smallest `u` in `u₀, 2·u₀, 4·u₀, …` with `n < 2^53 · u`. -/
def findUlp : Nat → Nat → Nat → Nat
  | 0, _, u => u
  | fuel + 1, n, u =>
    if n < f64SignificandBound * u then u else findUlp fuel n (2 * u)

/-- Round a natural number to the nearest representable double
(ties to even), returned as an exact natural number. -/
def roundF64Nat (n : Nat) : Nat :=
  let u := findUlp 1100 n 1
  let q := n / u
  let r := n % u
  if 2 * r < u then q * u
  else if u < 2 * r then (q + 1) * u
  else if q % 2 = 0 then q * u
  else (q + 1) * u

/-- JS `Number(bigint)`. -/
def jsNumber (x : Int) : Int :=
  if 0 ≤ x then (roundF64Nat x.toNat : Int) else -(roundF64Nat (-x).toNat : Int)

/-- The comparator key of `xmtpConversationList`:
`a.lastMessage ? Number(a.lastMessage.sentAtNs)
 : Number(a.conversation.createdAtNs ?? 0n)`. -/
def convSortTime (c : XmtpConversationSummary) : Int :=
  match c.lastMessage with
  | some m => jsNumber m.sentAtNs
  | none => jsNumber (c.conversation.createdAtNs.getD 0)

/-- The descending preorder induced by the comparator
`(a, b) => bTime - aTime` (a stable JS sort puts `a` no later than `b`
exactly when the comparator is `≤ 0`). -/
def convGe (a b : XmtpConversationSummary) : Prop :=
  convSortTime b ≤ convSortTime a

instance : DecidableRel convGe := fun a b =>
  inferInstanceAs (Decidable (convSortTime b ≤ convSortTime a))

instance : IsTotal XmtpConversationSummary convGe :=
  ⟨fun a b => Int.le_total (convSortTime b) (convSortTime a)⟩

instance : IsTrans XmtpConversationSummary convGe :=
  ⟨fun _ _ _ h h' => le_trans h' h⟩

/-- The filter predicate of `xmtpConversationList`: the trimmed lowercased
query must occur in the lowercased best-available label
(`peerAddress ?? peerInboxId ?? conversation.id`); an empty query matches
everything. -/
def convMatches (trimmedQuery : List Char) (c : XmtpConversationSummary) :
    Bool :=
  let label := c.peerAddress.getD (c.peerInboxId.getD c.conversation.id)
  if trimmedQuery.isEmpty then true
  else containsSubChars trimmedQuery (label.data.map Char.toLower)

/-- `xmtpConversationList`: filter the store's conversation records by the
search query, then sort by the recency comparator (stable). -/
def xmtpConversationList (search : String)
    (conversations : List XmtpConversationSummary) :
    List XmtpConversationSummary :=
  let trimmed := (jsTrimChars search.data).map Char.toLower
  (conversations.filter (convMatches trimmed)).insertionSort convGe

/-- The timestamp the specification orders by: `lastMessage.sentAtNs` when
a last message is present, else the conversation's creation time, else 0. -/
def specSortTime (c : XmtpConversationSummary) : Int :=
  match c.lastMessage with
  | some m => m.sentAtNs
  | none =>
    match c.conversation.createdAtNs with
    | some t => t
    | none => 0

/-- The specification's membership predicate: the trimmed query occurs
case-insensitively in the best-available display label. -/
def specMatches (search : String) (c : XmtpConversationSummary) : Prop :=
  (jsTrimChars search.data).map Char.toLower <:+:
    (c.peerAddress.getD (c.peerInboxId.getD c.conversation.id)).data.map
      Char.toLower

theorem convSortTime_eq (c : XmtpConversationSummary) :
    convSortTime c = jsNumber (specSortTime c) := by
  unfold convSortTime specSortTime
  cases c.lastMessage with
  | some m => rfl
  | none =>
    cases c.conversation.createdAtNs with
    | some t => rfl
    | none => rfl

theorem convMatches_iff (search : String) (c : XmtpConversationSummary) :
    convMatches ((jsTrimChars search.data).map Char.toLower) c = true ↔
      specMatches search c := by
  unfold convMatches specMatches
  by_cases h : ((jsTrimChars search.data).map Char.toLower).isEmpty
  · rw [if_pos h]
    simp only [true_iff]
    rw [List.isEmpty_iff.mp h]
    exact List.nil_infix
  · rw [if_neg h]
    exact containsSubChars_iff _ _

/-- Stability of one ordered insertion, phrased through a key-class
filter: inserting `a` does not disturb the relative order of any key
class beyond placing `a` in front of its own class's tail. -/
theorem filter_orderedInsert_key (k : Int) (a : XmtpConversationSummary) :
    ∀ s : List XmtpConversationSummary,
      (s.orderedInsert convGe a).filter (fun c => convSortTime c == k) =
        ((a :: s).filter (fun c => convSortTime c == k))
  | [] => rfl
  | b :: l => by
    rw [List.orderedInsert]
    by_cases h : convGe a b
    · rw [if_pos h]
    · rw [if_neg h]
      have h' : ¬ convSortTime b ≤ convSortTime a := h
      have hne : convSortTime a ≠ convSortTime b :=
        ne_of_lt (lt_of_not_le h')
      have ih := filter_orderedInsert_key k a l
      by_cases hqa : convSortTime a = k
      · have hqb : ¬ convSortTime b = k := fun hb => hne (by omega)
        simp [List.filter_cons, hqa, hqb, ih]
      · simp [List.filter_cons, hqa, ih]

/-- Stability of the whole sort on each key class. -/
theorem filter_insertionSort_key (k : Int) :
    ∀ l : List XmtpConversationSummary,
      (l.insertionSort convGe).filter (fun c => convSortTime c == k) =
        l.filter (fun c => convSortTime c == k)
  | [] => rfl
  | a :: l => by
    rw [List.insertionSort, filter_orderedInsert_key, List.filter_cons,
      List.filter_cons, filter_insertionSort_key k l]

/-! ### Claim C7 -/

/-- Conversation whose last message was sent at `2^54` ns. -/
def cexConvEarly : XmtpConversationSummary :=
  { id := "early", conversation := ⟨"early", none⟩, peerInboxId := none,
    peerAddress := none,
    lastMessage := some ⟨"me", "early", "s", "x", 18014398509481984⟩ }

/-- Conversation whose last message was sent at `2^54 + 1` ns
(1 ns later, but `Number` rounds it to the same double). -/
def cexConvLate : XmtpConversationSummary :=
  { id := "late", conversation := ⟨"late", none⟩, peerInboxId := none,
    peerAddress := none,
    lastMessage := some ⟨"ml", "late", "s", "x", 18014398509481985⟩ }

/-- C7, counterexample to the claim as stated: with the earlier-timestamp
conversation first in the store, the projection is not ordered descending
by the exact last-message timestamp — `Number` collapses the two distinct
BigInt nanosecond timestamps into the same double, the comparator reports
a tie, and the stable sort keeps input order. -/
theorem xmtpConversationList_cex :
    xmtpConversationList "" [cexConvEarly, cexConvLate] =
      [cexConvEarly, cexConvLate] ∧
    specSortTime cexConvEarly < specSortTime cexConvLate ∧
    ¬ (xmtpConversationList "" [cexConvEarly, cexConvLate]).Pairwise
        (fun a b => specSortTime b ≤ specSortTime a) := by
  have heq : xmtpConversationList "" [cexConvEarly, cexConvLate] =
      [cexConvEarly, cexConvLate] := by decide
  refine ⟨heq, by decide, ?_⟩
  rw [heq]
  intro hp
  have h1 := (List.pairwise_cons.mp hp).1 cexConvLate (List.mem_cons_self _ _)
  exact absurd h1 (by decide)

/-- C7 (amended): the projected real-conversation list contains exactly
the store conversations whose best-available display label
(`peerDisplayAddress`, else `peerIdentifier`, else conversation id)
contains the query case-insensitively, ordered descending by the
`Number`-converted (double-rounded) timestamp of the last message if
present, else the creation time, else 0 — with ties of that rounded key
keeping the store's insertion order. -/
theorem xmtpConversationList_spec (search : String)
    (st : List XmtpConversationSummary) :
    (∀ c, c ∈ xmtpConversationList search st ↔ c ∈ st ∧ specMatches search c) ∧
    (xmtpConversationList search st).Pairwise
      (fun a b => jsNumber (specSortTime b) ≤ jsNumber (specSortTime a)) ∧
    (∀ k : Int,
      (xmtpConversationList search st).filter
          (fun c => jsNumber (specSortTime c) == k) =
        (st.filter
            (convMatches ((jsTrimChars search.data).map Char.toLower))).filter
          (fun c => jsNumber (specSortTime c) == k)) := by
  have hkey : ∀ (k : Int) (c : XmtpConversationSummary),
      (jsNumber (specSortTime c) == k) = (convSortTime c == k) := by
    intro k c
    rw [convSortTime_eq]
  refine ⟨?_, ?_, ?_⟩
  · intro c
    rw [xmtpConversationList]
    rw [List.mem_insertionSort, List.mem_filter, convMatches_iff]
  · have hs : (xmtpConversationList search st).Pairwise convGe :=
      List.sorted_insertionSort convGe _
    refine hs.imp ?_
    intro a b hab
    rw [← convSortTime_eq, ← convSortTime_eq]
    exact hab
  · intro k
    have e1 : (fun c => jsNumber (specSortTime c) == k) =
        (fun c => convSortTime c == k) := funext (hkey k)
    rw [e1]
    exact filter_insertionSort_key k _

/-! ## The message-envelope codec (`encodeXmtpEmailV1` / `decodeXmtpEmail`)

The codec serializes through `JSON.stringify` and parses through
`JSON.parse`, so both are modelled here. `Json` is the parsed-value type;
numbers are kept as exact decimals `mantissa · 10^exp10` (JS parses to
doubles; the exact-decimal model agrees on every comparison the decoder
performs except for decimals needing more than 53 bits of precision).
Unicode escapes denoting lone surrogates (not representable as Lean
scalar values) are approximated by U+FFFD. -/

inductive Json
  | null
  | bool (b : Bool)
  | num (mantissa : Int) (exp10 : Int)
  | str (s : List Char)
  | arr (xs : List Json)
  | obj (fields : List (List Char × Json))

/-- JSON whitespace (space, tab, line feed, carriage return). -/
def isJsonWs (c : Char) : Bool :=
  c == ' ' || c == '\t' || c == '\n' || c == '\r'

/-- Skip JSON whitespace. -/
def skipWs (l : List Char) : List Char := l.dropWhile isJsonWs

/-- Value of a hex digit. -/
def hexDigitVal (c : Char) : Option Nat :=
  if '0' ≤ c ∧ c ≤ '9' then some (c.toNat - 48)
  else if 'a' ≤ c ∧ c ≤ 'f' then some (c.toNat - 87)
  else if 'A' ≤ c ∧ c ≤ 'F' then some (c.toNat - 55)
  else none

/-- Four hex digits. -/
def hex4 (h1 h2 h3 h4 : Char) : Option Nat :=
  match hexDigitVal h1, hexDigitVal h2, hexDigitVal h3, hexDigitVal h4 with
  | some a, some b, some c, some d => some (4096 * a + 256 * b + 16 * c + d)
  | _, _, _, _ => none

/-- Single-character JSON string escapes. -/
def escCharJson (e : Char) : Option Char :=
  if e == '"' then some '"'
  else if e == '\\' then some '\\'
  else if e == '/' then some '/'
  else if e == 'b' then some (Char.ofNat 8)
  else if e == 'f' then some (Char.ofNat 12)
  else if e == 'n' then some '\n'
  else if e == 'r' then some '\r'
  else if e == 't' then some '\t'
  else none

/-- Parse the remainder of a JSON string (after the opening quote) up to
and including the closing quote; returns the decoded characters and the
input remainder. Fuel decreases at every step; each step consumes at
least one input character, so `length + 1` fuel always suffices. -/
def parseStringRest : Nat → List Char → Option (List Char × List Char)
  | 0, _ => none
  | fuel + 1, l =>
    match l with
    | [] => none
    | c :: t =>
      if c == '"' then some ([], t)
      else if c == '\\' then
        match t with
        | [] => none
        | e :: r =>
          if e == 'u' then
            match r with
            | h1 :: h2 :: h3 :: h4 :: r2 =>
              match hex4 h1 h2 h3 h4 with
              | none => none
              | some n =>
                if n < 55296 then
                  match parseStringRest fuel r2 with
                  | some (s, r3) => some (Char.ofNat n :: s, r3)
                  | none => none
                else if 57343 < n then
                  match parseStringRest fuel r2 with
                  | some (s, r3) => some (Char.ofNat n :: s, r3)
                  | none => none
                else
                  match r2 with
                  | b1 :: b2 :: g1 :: g2 :: g3 :: g4 :: r4 =>
                    match hex4 g1 g2 g3 g4 with
                    | some m =>
                      if b1 == '\\' && b2 == 'u' && decide (n ≤ 56319) &&
                          decide (56320 ≤ m) && decide (m ≤ 57343) then
                        match parseStringRest fuel r4 with
                        | some (s, r5) =>
                          some (Char.ofNat
                            (65536 + (n - 55296) * 1024 + (m - 56320)) :: s,
                            r5)
                        | none => none
                      else
                        match parseStringRest fuel r2 with
                        | some (s, r3) => some ('�' :: s, r3)
                        | none => none
                    | none =>
                      match parseStringRest fuel r2 with
                      | some (s, r3) => some ('�' :: s, r3)
                      | none => none
                  | _ =>
                    match parseStringRest fuel r2 with
                    | some (s, r3) => some ('�' :: s, r3)
                    | none => none
            | _ => none
          else
            match escCharJson e with
            | some c2 =>
              match parseStringRest fuel r with
              | some (s, r2) => some (c2 :: s, r2)
              | none => none
            | none => none
      else if c.toNat < 32 then none
      else
        match parseStringRest fuel t with
        | some (s, r) => some (c :: s, r)
        | none => none

/-- Is `c` a decimal digit? -/
def isDigitChar (c : Char) : Bool := 48 ≤ c.toNat && c.toNat ≤ 57

/-- Value of a decimal digit character. -/
def digitVal (c : Char) : Nat := c.toNat - 48

/-- Decimal digits to a natural number. -/
def digitsToNat (ds : List Char) : Nat :=
  ds.foldl (fun a c => 10 * a + digitVal c) 0

/-- Optional fraction part `.digits`. Returns the fraction digits. -/
def parseFracPart (l : List Char) : Option (List Char × List Char) :=
  match l with
  | [] => some ([], [])
  | c :: t =>
    if c == '.' then
      let ds := t.takeWhile isDigitChar
      if ds.isEmpty then none
      else some (ds, t.dropWhile isDigitChar)
    else some ([], c :: t)

/-- Optional exponent part `(e|E)(+|-)?digits`. -/
def parseExpPart (l : List Char) : Option (Int × List Char) :=
  match l with
  | [] => some (0, [])
  | c :: t =>
    if c == 'e' || c == 'E' then
      match t with
      | [] => none
      | d :: t2 =>
        if d == '+' then
          let ds := t2.takeWhile isDigitChar
          if ds.isEmpty then none
          else some ((digitsToNat ds : Int), t2.dropWhile isDigitChar)
        else if d == '-' then
          let ds := t2.takeWhile isDigitChar
          if ds.isEmpty then none
          else some (-(digitsToNat ds : Int), t2.dropWhile isDigitChar)
        else
          let ds := (d :: t2).takeWhile isDigitChar
          if ds.isEmpty then none
          else some ((digitsToNat ds : Int), (d :: t2).dropWhile isDigitChar)
    else some (0, c :: t)

/-- Parse a JSON number starting at its first character; returns its exact
decimal value as `(mantissa, exp10)`. -/
def parseNumberRest (l : List Char) : Option ((Int × Int) × List Char) :=
  let (neg, l1) :=
    match l with
    | c :: t => if c == '-' then (true, t) else (false, c :: t)
    | [] => (false, [])
  match l1 with
  | [] => none
  | c :: t =>
    if c == '0' then
      match parseFracPart t with
      | none => none
      | some (frac, l2) =>
        match parseExpPart l2 with
        | none => none
        | some (e, l3) =>
          let mant : Nat := digitsToNat frac
          let mantI : Int := if neg then -(mant : Int) else (mant : Int)
          some ((mantI, e - frac.length), l3)
    else if isDigitChar c then
      let ds := (c :: t).takeWhile isDigitChar
      let rest1 := (c :: t).dropWhile isDigitChar
      match parseFracPart rest1 with
      | none => none
      | some (frac, l2) =>
        match parseExpPart l2 with
        | none => none
        | some (e, l3) =>
          let mant : Nat := digitsToNat (ds ++ frac)
          let mantI : Int := if neg then -(mant : Int) else (mant : Int)
          some ((mantI, e - frac.length), l3)
    else none

mutual

/-- Parse one JSON value. Fuel decreases at every mutual call; every such
call strictly consumes input, so `length + 1` fuel always suffices. -/
def parseValue : Nat → List Char → Option (Json × List Char)
  | 0, _ => none
  | fuel + 1, l =>
    match l with
    | [] => none
    | c :: t =>
      if c == '\x7b' then
        match skipWs t with
        | [] => none
        | d :: r =>
          if d == '\x7d' then some (Json.obj [], r)
          else
            match parseMembers fuel (d :: r) with
            | some (fields, r2) => some (Json.obj fields, r2)
            | none => none
      else if c == '[' then
        match skipWs t with
        | [] => none
        | d :: r =>
          if d == ']' then some (Json.arr [], r)
          else
            match parseElements fuel (d :: r) with
            | some (xs, r2) => some (Json.arr xs, r2)
            | none => none
      else if c == '"' then
        match parseStringRest (t.length + 1) t with
        | some (s, r) => some (Json.str s, r)
        | none => none
      else if c == 't' then
        if isPrefixOfChars "true".data (c :: t) then
          some (Json.bool true, (c :: t).drop 4)
        else none
      else if c == 'f' then
        if isPrefixOfChars "false".data (c :: t) then
          some (Json.bool false, (c :: t).drop 5)
        else none
      else if c == 'n' then
        if isPrefixOfChars "null".data (c :: t) then
          some (Json.null, (c :: t).drop 4)
        else none
      else if c == '-' || isDigitChar c then
        match parseNumberRest (c :: t) with
        | some (mn, r) => some (Json.num mn.1 mn.2, r)
        | none => none
      else none

/-- Parse the members of a JSON object, starting at the first key's
opening quote, through the closing brace. -/
def parseMembers :
    Nat → List Char → Option (List (List Char × Json) × List Char)
  | 0, _ => none
  | fuel + 1, l =>
    match l with
    | [] => none
    | c :: t =>
      if c == '"' then
        match parseStringRest (t.length + 1) t with
        | none => none
        | some (key, r1) =>
          match skipWs r1 with
          | [] => none
          | d :: r2 =>
            if d == ':' then
              match parseValue fuel (skipWs r2) with
              | none => none
              | some (v, r3) =>
                match skipWs r3 with
                | [] => none
                | e :: r4 =>
                  if e == ',' then
                    match parseMembers fuel (skipWs r4) with
                    | none => none
                    | some (fields, r5) => some ((key, v) :: fields, r5)
                  else if e == '\x7d' then some ([(key, v)], r4)
                  else none
            else none
      else none

/-- Parse the elements of a JSON array, starting at the first element,
through the closing bracket. -/
def parseElements : Nat → List Char → Option (List Json × List Char)
  | 0, _ => none
  | fuel + 1, l =>
    match parseValue fuel l with
    | some (v, r1) =>
      match skipWs r1 with
      | [] => none
      | e :: r2 =>
        if e == ',' then
          match parseElements fuel (skipWs r2) with
          | some (xs, r3) => some (v :: xs, r3)
          | none => none
        else if e == ']' then some ([v], r2)
        else none
    | none => none

end

/-- `JSON.parse`: optional whitespace, one value, optional whitespace,
end of input; anything else is a parse failure (`none` models a thrown
`SyntaxError`). -/
def parseJson (l : List Char) : Option Json :=
  match parseValue (l.length + 1) (skipWs l) with
  | some (v, rest) => if (skipWs rest).isEmpty then some v else none
  | none => none

/-! ### The decoder (`decodeXmtpEmail`) -/

/-- Lookup of an object field; a later duplicate key wins, as in the
object built by `JSON.parse`. -/
def jGet (fields : List (List Char × Json)) (k : List Char) : Option Json :=
  match fields with
  | [] => none
  | (key, v) :: rest =>
    match jGet rest k with
    | some v2 => some v2
    | none => if key = k then some v else none

/-- JS property access `parsed?.k`: an own field of an object, `undefined`
on everything else. -/
def jFieldOf (j : Json) (k : List Char) : Option Json :=
  match j with
  | Json.obj fields => jGet fields k
  | _ => none

/-- Exact equality of two parsed decimals `m · 10^e`. -/
def jnumEq (m1 e1 m2 e2 : Int) : Bool :=
  if 0 ≤ e1 - e2 then m1 * 10 ^ (e1 - e2).toNat == m2
  else m1 == m2 * 10 ^ (e2 - e1).toNat

/-- `parsed?.type === 'email'`. -/
def typeFieldOk (parsed : Json) : Bool :=
  match jFieldOf parsed "type".data with
  | some (Json.str s) => s == "email".data
  | _ => false

/-- `parsed?.v === 1`. -/
def vFieldOk (parsed : Json) : Bool :=
  match jFieldOf parsed "v".data with
  | some (Json.num m e) => jnumEq m e 1 0
  | _ => false

/-- `typeof parsed.k === 'string' ? parsed.k : undefined`. -/
def strField (parsed : Json) (k : List Char) : Option (List Char) :=
  match jFieldOf parsed k with
  | some (Json.str s) => some s
  | _ => none

/-- `typeof parsed.k === 'number' ? parsed.k : undefined`. -/
def numField (parsed : Json) (k : List Char) : Option (Int × Int) :=
  match jFieldOf parsed k with
  | some (Json.num m e) => some (m, e)
  | _ => none

/-- The decoded envelope record (the constant `v: 1` / `type: 'email'`
discriminators are omitted; `from`/`to` are renamed `fromAddr`/`toAddr`
since `from` is reserved in Lean). -/
structure XmtpEmailV1 where
  subject : String
  body : String
  fromAddr : Option String
  toAddr : Option String
  sentAt : Option (Int × Int)
deriving DecidableEq

/-- `DecodedXmtpEmail`. -/
inductive DecodedXmtpEmail
  | email (e : XmtpEmailV1)
  | text (t : String)
deriving DecidableEq

/-- `decodeXmtpEmail(content)` for string content: trim; empty → empty
text; JSON-parse the trimmed string (a parse failure returns the original
content as text); check the `type`/`v` discriminators and that `subject`
and `body` are strings, returning the original content as text on any
mismatch; otherwise assemble the envelope. -/
def decodeXmtpEmail (content : String) : DecodedXmtpEmail :=
  let trimmed := jsTrimChars content.data
  if trimmed.isEmpty then DecodedXmtpEmail.text ""
  else
    match parseJson trimmed with
    | none => DecodedXmtpEmail.text content
    | some parsed =>
      if !typeFieldOk parsed || !vFieldOk parsed then
        DecodedXmtpEmail.text content
      else
        match strField parsed "subject".data, strField parsed "body".data with
        | some subj, some bod =>
          DecodedXmtpEmail.email
            { subject := ⟨subj⟩, body := ⟨bod⟩,
              fromAddr := (strField parsed "from".data).map (fun l => ⟨l⟩),
              toAddr := (strField parsed "to".data).map (fun l => ⟨l⟩),
              sentAt := numField parsed "sentAt".data }
        | _, _ => DecodedXmtpEmail.text content

/-- Does `parseJson` succeed with a value passing all the decoder's shape
checks? (`false` covers both parse failure and any mismatch.) -/
def parsesToEmailShape (t : List Char) : Bool :=
  match parseJson t with
  | some j =>
    typeFieldOk j && vFieldOk j && (strField j "subject".data).isSome &&
      (strField j "body".data).isSome
  | none => false

/-! ### The encoder (`encodeXmtpEmailV1`) -/

/-- Lowercase hex digit. -/
def hexDigitChar (n : Nat) : Char :=
  if n < 10 then Char.ofNat (48 + n) else Char.ofNat (87 + n)

/-- `JSON.stringify` escaping of one string character. -/
def jsonEscapeChar (c : Char) : List Char :=
  if c == '"' then ['\\', '"']
  else if c == '\\' then ['\\', '\\']
  else if c == Char.ofNat 8 then ['\\', 'b']
  else if c == '\t' then ['\\', 't']
  else if c == '\n' then ['\\', 'n']
  else if c == Char.ofNat 12 then ['\\', 'f']
  else if c == '\r' then ['\\', 'r']
  else if c.toNat < 32 then
    ['\\', 'u', '0', '0', hexDigitChar (c.toNat / 16),
     hexDigitChar (c.toNat % 16)]
  else [c]

/-- `JSON.stringify` escaping of a string body. -/
def jsonEscape : List Char → List Char
  | [] => []
  | c :: t => jsonEscapeChar c ++ jsonEscape t

/-- A `JSON.stringify`d string: quote, escaped body, quote. -/
def jstr (s : List Char) : List Char := '"' :: (jsonEscape s ++ ['"'])

/-- Decimal digits of a natural number (fuelled division loop; `n + 1`
fuel always suffices since `n / 10 < n`). -/
def natDigitsGo : Nat → Nat → List Char
  | 0, _ => []
  | fuel + 1, n =>
    if n < 10 then [Char.ofNat (48 + n)]
    else natDigitsGo fuel (n / 10) ++ [Char.ofNat (48 + n % 10)]

/-- Decimal representation of a natural number. -/
def natDigits (n : Nat) : List Char := natDigitsGo (n + 1) n

/-- The middle (between the braces) of the `JSON.stringify` output of the
payload object `{v: 1, type: 'email', subject, body, from?, to?, sentAt}`
(insertion order preserved, `undefined`-valued properties omitted). -/
def encodeInner (subject body : List Char)
    (fromAddr toAddr : Option (List Char)) (now : Nat) : List Char :=
  "\"v\":1,\"type\":\"email\",\"subject\":".data ++
    jstr (jsTrimChars subject) ++
  ",\"body\":".data ++ jstr body ++
  (match fromAddr with
   | some f => ",\"from\":".data ++ jstr f
   | none => []) ++
  (match toAddr with
   | some t => ",\"to\":".data ++ jstr t
   | none => []) ++
  ",\"sentAt\":".data ++ natDigits now ++ []

/-- The character list of the `JSON.stringify` output. -/
def encodeChars (subject body : List Char)
    (fromAddr toAddr : Option (List Char)) (now : Nat) : List Char :=
  '\x7b' :: (encodeInner subject body fromAddr toAddr now ++ ['\x7d'])

/-- `encodeXmtpEmailV1({subject, body, from?, to?})`: trims the subject,
stamps the current time (`now`, the value of `Date.now()`), and
serializes the versioned payload deterministically via `JSON.stringify`. -/
def encodeXmtpEmailV1 (subject body : String)
    (fromAddr toAddr : Option String) (now : Nat) : String :=
  ⟨encodeChars subject.data body.data (fromAddr.map String.data)
    (toAddr.map String.data) now⟩

/-! ### Claim C5 -/

/-- C5, counterexample to the claim as stated: the whitespace-only input
`" "` fails to parse as JSON, yet the decoder returns the empty text, not
the original input verbatim. -/
theorem decodeXmtpEmail_fallback_cex :
    (parseJson " ".data).isNone = true ∧
    decodeXmtpEmail " " = DecodedXmtpEmail.text "" ∧
    DecodedXmtpEmail.text "" ≠ DecodedXmtpEmail.text " " := by
  refine ⟨by decide, by decide, by decide⟩

/-- C5 (amended): for every string input that does not trim to the empty
string, if the input fails to parse as JSON, or parses to a value whose
discriminators (`type === 'email'`, `v === 1`) do not both match, or whose
`subject`/`body` are not both strings, the decoder returns the text
variant carrying the original input verbatim; an input that trims to the
empty string returns the empty text instead. In particular
`decodeEnvelope("plain text")` and `decodeEnvelope('{"v":2,"type":"email"}')`
return their inputs as text. -/
theorem decodeXmtpEmail_fallback :
    (∀ s : String, (jsTrimChars s.data).isEmpty = false →
      parsesToEmailShape (jsTrimChars s.data) = false →
      decodeXmtpEmail s = DecodedXmtpEmail.text s) ∧
    decodeXmtpEmail "plain text" = DecodedXmtpEmail.text "plain text" ∧
    decodeXmtpEmail "\x7b\"v\":2,\"type\":\"email\"\x7d" =
      DecodedXmtpEmail.text "\x7b\"v\":2,\"type\":\"email\"\x7d" := by
  refine ⟨?_, by decide, by decide⟩
  intro s h1 h2
  unfold decodeXmtpEmail
  simp only [h1, Bool.false_eq_true, if_false]
  unfold parsesToEmailShape at h2
  cases hp : parseJson (jsTrimChars s.data) with
  | none => simp [hp]
  | some j =>
    rw [hp] at h2
    by_cases ht : (!typeFieldOk j || !vFieldOk j) = true
    · simp [hp, ht]
    · have hok : typeFieldOk j = true ∧ vFieldOk j = true := by
        constructor
        · cases hq : typeFieldOk j
          · rw [hq] at ht
            simp at ht
          · rfl
        · cases hq : vFieldOk j
          · rw [hq] at ht
            simp at ht
          · rfl
      cases hsub : strField j "subject".data with
      | none => simp [hp, ht, hsub]
      | some sub =>
        cases hbod : strField j "body".data with
        | none => simp [hp, ht, hsub, hbod]
        | some bod =>
          simp [hok.1, hok.2, hsub, hbod] at h2

/-- C5 witness: a concrete input that parses as JSON (an array) but fails
the envelope shape checks is returned as text verbatim. -/
theorem decodeXmtpEmail_fallback_witness :
    decodeXmtpEmail "[1]" = DecodedXmtpEmail.text "[1]" :=
  decodeXmtpEmail_fallback.1 "[1]" (by decide) (by decide)

/-! ### Round-trip lemmas for the codec -/

theorem char_ofNat_toNat {c : Char} (h : c.toNat < 55296) :
    Char.ofNat c.toNat = c := by
  have hv : c.toNat.isValidChar := Or.inl h
  unfold Char.ofNat
  rw [dif_pos hv]
  apply Char.ext
  apply UInt32.ext
  simp [Char.ofNatAux, UInt32.ofNat', Char.toNat]
  rfl

theorem hexDigitVal_hexDigitChar (m : Nat) (h : m < 16) :
    hexDigitVal (hexDigitChar m) = some m := by
  interval_cases m <;> decide

theorem jsonEscape_length_ge (s : List Char) :
    s.length ≤ (jsonEscape s).length := by
  induction s with
  | nil => simp [jsonEscape]
  | cons c t ih =>
    have h1 : 1 ≤ (jsonEscapeChar c).length := by
      unfold jsonEscapeChar
      split_ifs <;> simp
    simp only [jsonEscape, List.length_append, List.length_cons]
    omega

theorem parseStringRest_escape :
    ∀ (s rest : List Char) (fuel : Nat), s.length + 1 ≤ fuel →
      parseStringRest fuel (jsonEscape s ++ ('"' :: rest)) = some (s, rest)
  | [], rest, fuel + 1, _ => by
    simp [jsonEscape, parseStringRest]
  | c :: t, rest, fuel + 1, hf => by
    have ih := parseStringRest_escape t rest fuel
      (by simp only [List.length_cons] at hf; omega)
    show parseStringRest (fuel + 1)
        ((jsonEscapeChar c ++ jsonEscape t) ++ '"' :: rest) = _
    rw [List.append_assoc]
    unfold jsonEscapeChar
    by_cases h1 : c == '"'
    · rw [if_pos h1]
      have hc : c = '"' := by simpa using h1
      subst hc
      simp [parseStringRest, escCharJson, ih]
    · rw [if_neg h1]
      by_cases h2 : c == '\\'
      · rw [if_pos h2]
        have hc : c = '\\' := by simpa using h2
        subst hc
        simp [parseStringRest, escCharJson, ih]
      · rw [if_neg h2]
        by_cases h3 : c == Char.ofNat 8
        · rw [if_pos h3]
          have hc : c = Char.ofNat 8 := by simpa using h3
          subst hc
          simp [parseStringRest, escCharJson, ih]
        · rw [if_neg h3]
          by_cases h4 : c == '\t'
          · rw [if_pos h4]
            have hc : c = '\t' := by simpa using h4
            subst hc
            simp [parseStringRest, escCharJson, ih]
          · rw [if_neg h4]
            by_cases h5 : c == '\n'
            · rw [if_pos h5]
              have hc : c = '\n' := by simpa using h5
              subst hc
              simp [parseStringRest, escCharJson, ih]
            · rw [if_neg h5]
              by_cases h6 : c == Char.ofNat 12
              · rw [if_pos h6]
                have hc : c = Char.ofNat 12 := by simpa using h6
                subst hc
                simp [parseStringRest, escCharJson, ih]
              · rw [if_neg h6]
                by_cases h7 : c == '\r'
                · rw [if_pos h7]
                  have hc : c = '\r' := by simpa using h7
                  subst hc
                  simp [parseStringRest, escCharJson, ih]
                · rw [if_neg h7]
                  by_cases h8 : c.toNat < 32
                  · rw [if_pos h8]
                    have hdiv : c.toNat / 16 < 16 := by omega
                    have hmod : c.toNat % 16 < 16 := by omega
                    have hv1 := hexDigitVal_hexDigitChar _ hdiv
                    have hv2 := hexDigitVal_hexDigitChar _ hmod
                    have hn : 16 * (c.toNat / 16) + c.toNat % 16 =
                        c.toNat := by omega
                    have hlt : c.toNat < 55296 := by omega
                    have h0 : hexDigitVal '0' = some 0 := rfl
                    simp only [List.cons_append, List.nil_append,
                      parseStringRest]
                    simp [hex4, h0, hv1, hv2, hn, hlt,
                      char_ofNat_toNat hlt, ih]
                  · rw [if_neg h8]
                    have hne1 : (c == '"') = false := by
                      simpa using h1
                    have hne2 : (c == '\\') = false := by
                      simpa using h2
                    simp only [List.cons_append, List.nil_append,
                      parseStringRest, hne1, hne2, Bool.false_eq_true,
                      if_false, h8, ih]

theorem parseStringRest_call (s rest : List Char) :
    parseStringRest ((jsonEscape s ++ '"' :: rest).length + 1)
        (jsonEscape s ++ '"' :: rest) = some (s, rest) := by
  apply parseStringRest_escape
  have := jsonEscape_length_ge s
  simp only [List.length_append, List.length_cons]
  omega

theorem takeWhile_append_all (p : Char → Bool) :
    ∀ l1 l2 : List Char, (∀ c ∈ l1, p c = true) →
      (l1 ++ l2).takeWhile p = l1 ++ l2.takeWhile p
  | [], l2, _ => by simp
  | c :: t, l2, h => by
    have hc : p c = true := h c (List.mem_cons_self _ _)
    simp only [List.cons_append, List.takeWhile_cons, hc, if_true]
    rw [takeWhile_append_all p t l2 (fun x hx => h x (List.mem_cons_of_mem _ hx))]

theorem dropWhile_append_all (p : Char → Bool) :
    ∀ l1 l2 : List Char, (∀ c ∈ l1, p c = true) →
      (l1 ++ l2).dropWhile p = l2.dropWhile p
  | [], l2, _ => by simp
  | c :: t, l2, h => by
    have hc : p c = true := h c (List.mem_cons_self _ _)
    simp only [List.cons_append, List.dropWhile_cons, hc, if_true]
    exact dropWhile_append_all p t l2 (fun x hx => h x (List.mem_cons_of_mem _ hx))

theorem digitsToNat_append (a : List Char) (d : Char) :
    digitsToNat (a ++ [d]) = 10 * digitsToNat a + digitVal d := by
  simp [digitsToNat, List.foldl_append]

theorem natDigitsGo_spec :
    ∀ (fuel n : Nat), n < fuel →
      natDigitsGo fuel n ≠ [] ∧
      (∀ c ∈ natDigitsGo fuel n, isDigitChar c = true) ∧
      digitsToNat (natDigitsGo fuel n) = n ∧
      (0 < n → ∀ c, (natDigitsGo fuel n).head? = some c → ¬ c = '0')
  | 0, n, h => absurd h (by omega)
  | fuel + 1, n, _ => by
    by_cases h10 : n < 10
    · refine ⟨by simp [natDigitsGo, h10], ?_, ?_, ?_⟩
      · intro c hc
        simp only [natDigitsGo, if_pos h10, List.mem_singleton] at hc
        subst hc
        interval_cases n <;> decide
      · simp only [natDigitsGo, if_pos h10, digitsToNat, List.foldl_cons,
          List.foldl_nil]
        have : digitVal (Char.ofNat (48 + n)) = n := by
          interval_cases n <;> decide
        simp [this]
      · intro hn c hc
        simp only [natDigitsGo, if_pos h10, List.head?_cons,
          Option.some.injEq] at hc
        subst hc
        interval_cases n <;> simp_all
    · have hdiv : n / 10 < fuel := by omega
      obtain ⟨hne, hdig, hval, hhd⟩ := natDigitsGo_spec fuel (n / 10) hdiv
      have hmod : n % 10 < 10 := by omega
      refine ⟨by simp [natDigitsGo, h10], ?_, ?_, ?_⟩
      · intro c hc
        simp only [natDigitsGo, if_neg h10, List.mem_append,
          List.mem_singleton] at hc
        rcases hc with hc | hc
        · exact hdig c hc
        · subst hc
          interval_cases h : n % 10 <;> decide
      · rw [natDigitsGo, if_neg h10, digitsToNat_append, hval]
        have : digitVal (Char.ofNat (48 + n % 10)) = n % 10 := by
          interval_cases h : n % 10 <;> decide
        rw [this]
        omega
      · intro _ c hc
        rw [natDigitsGo, if_neg h10] at hc
        cases hgo : natDigitsGo fuel (n / 10) with
        | nil => exact absurd hgo hne
        | cons a t =>
          rw [hgo, List.cons_append, List.head?_cons,
            Option.some.injEq] at hc
          subst hc
          exact hhd (by omega) a (by rw [hgo]; rfl)

theorem parseNumberRest_natDigits (n : Nat) (r0 : List Char) :
    parseNumberRest (natDigits n ++ '\x7d' :: r0) =
      some (((n : Int), 0), '\x7d' :: r0) := by
  obtain ⟨hne, hdig, hval, hhd⟩ := natDigitsGo_spec (n + 1) n (by omega)
  rw [natDigits]
  cases hgo : natDigitsGo (n + 1) n with
  | nil => exact absurd hgo hne
  | cons a t =>
    have hdva : isDigitChar a = true :=
      hdig a (by rw [hgo]; exact List.mem_cons_self _ _)
    have hnotminus : (a == '-') = false := by
      rw [beq_eq_false_iff_ne]
      intro h
      subst h
      simp [isDigitChar] at hdva
    by_cases h0 : n = 0
    · subst h0
      have : a = '0' ∧ t = [] := by
        have : (['0'] : List Char) = a :: t := by
          rw [← hgo]; rfl
        exact ⟨(List.cons.inj this.symm).1, (List.cons.inj this.symm).2⟩
      rcases this with ⟨rfl, rfl⟩
      simp [parseNumberRest, parseFracPart, parseExpPart, digitsToNat]
    · have hd0 : ¬ a = '0' := hhd (by omega) a (by rw [hgo]; rfl)
      have ha0 : (a == '0') = false := by
        rw [beq_eq_false_iff_ne]; exact hd0
      have hdigall : ∀ c ∈ a :: t, isDigitChar c = true := by
        rw [← hgo]; exact hdig
      have htake : ((a :: t) ++ '\x7d' :: r0).takeWhile isDigitChar =
          a :: t := by
        rw [takeWhile_append_all isDigitChar _ _ hdigall]
        simp [List.takeWhile_cons, isDigitChar]
      have hdrop : ((a :: t) ++ '\x7d' :: r0).dropWhile isDigitChar =
          '\x7d' :: r0 := by
        rw [dropWhile_append_all isDigitChar _ _ hdigall]
        simp [List.dropWhile_cons, isDigitChar]
      have hvaln : digitsToNat (a :: t) = n := by rw [← hgo]; exact hval
      show parseNumberRest (a :: (t ++ '\x7d' :: r0)) = _
      unfold parseNumberRest
      simp only [hnotminus, Bool.false_eq_true, if_false, ha0, hdva, if_true]
      rw [show a :: (t ++ '\x7d' :: r0) = (a :: t) ++ '\x7d' :: r0 from rfl]
      rw [htake, hdrop]
      simp [parseFracPart, parseExpPart, hvaln]

/-- The `JSON.stringify` output (without `from`/`to`), in head-normal
list form for stepping the parser. -/
theorem encodeInner_eq (subject body : List Char) (now : Nat) :
    encodeInner subject body none none now =
      '"' :: 'v' :: '"' :: ':' :: '1' :: ',' :: '"' :: 't' :: 'y' :: 'p' :: 'e' :: '"' :: ':' :: '"' :: 'e' :: 'm' :: 'a' :: 'i' :: 'l' :: '"' :: ',' :: '"' :: 's' :: 'u' :: 'b' :: 'j' :: 'e' :: 'c' :: 't' :: '"' :: ':' :: '"' ::
      (jsonEscape (jsTrimChars subject) ++ '"' :: ',' :: '"' :: 'b' :: 'o' :: 'd' :: 'y' :: '"' :: ':' :: '"' ::
      (jsonEscape body ++ '"' :: ',' :: '"' :: 's' :: 'e' :: 'n' :: 't' :: 'A' :: 't' :: '"' :: ':' ::
      natDigits now)) := by
  simp [encodeInner, jstr, List.append_assoc]

theorem digit_not_special {a : Char} (h : isDigitChar a = true) (c : Char)
    (hc : isDigitChar c = false) : (a == c) = false := by
  rw [beq_eq_false_iff_ne]
  intro he
  rw [he] at h
  rw [h] at hc
  exact absurd hc (by decide)

theorem skipWs_natDigits (now : Nat) (r0 : List Char) :
    skipWs (natDigits now ++ r0) = natDigits now ++ r0 := by
  obtain ⟨hne, hdig, -, -⟩ := natDigitsGo_spec (now + 1) now (by omega)
  rw [natDigits]
  cases hgo : natDigitsGo (now + 1) now with
  | nil => exact absurd hgo hne
  | cons a t =>
    have hdva : isDigitChar a = true :=
      hdig a (by rw [hgo]; exact List.mem_cons_self _ _)
    have hws : isJsonWs a = false := by
      simp [isJsonWs, digit_not_special hdva ' ' (by decide),
        digit_not_special hdva '\t' (by decide),
        digit_not_special hdva '\n' (by decide),
        digit_not_special hdva '\r' (by decide)]
    simp [skipWs, List.dropWhile_cons, hws]

theorem parseValue_natDigits (now : Nat) (f : Nat) (r0 : List Char) :
    parseValue (f + 1) (natDigits now ++ '\x7d' :: r0) =
      some (Json.num (now : Int) 0, '\x7d' :: r0) := by
  obtain ⟨hne, hdig, -, -⟩ := natDigitsGo_spec (now + 1) now (by omega)
  have hnum := parseNumberRest_natDigits now r0
  rw [natDigits] at hnum ⊢
  cases hgo : natDigitsGo (now + 1) now with
  | nil => exact absurd hgo hne
  | cons a t =>
    rw [hgo] at hnum
    have hdva : isDigitChar a = true :=
      hdig a (by rw [hgo]; exact List.mem_cons_self _ _)
    simp only [List.cons_append, parseValue,
      digit_not_special hdva '\x7b' (by decide),
      digit_not_special hdva '[' (by decide),
      digit_not_special hdva '"' (by decide),
      digit_not_special hdva 't' (by decide),
      digit_not_special hdva 'f' (by decide),
      digit_not_special hdva 'n' (by decide),
      digit_not_special hdva '-' (by decide),
      hdva, Bool.false_eq_true, if_false, Bool.false_or, if_true]
    rw [show a :: (t ++ '\x7d' :: r0) = (a :: t) ++ '\x7d' :: r0 from rfl,
      hnum]

theorem parseValue_strValue (g : Nat) (s rest : List Char) :
    parseValue (g + 1) ('"' :: (jsonEscape s ++ '"' :: rest)) =
      some (Json.str s, rest) := by
  simp only [parseValue,
    show (('"' : Char) == '\x7b') = false from rfl,
    show (('"' : Char) == '[') = false from rfl,
    show (('"' : Char) == '"') = true from rfl,
    Bool.false_eq_true, if_false, if_true, parseStringRest_call]

theorem parseValue_objStep (g : Nat) (t : List Char) (d : Char)
    (r r2 : List Char) (fields : List (List Char × Json))
    (hskip : skipWs t = d :: r)
    (hd : (d == '\x7d') = false)
    (hm : parseMembers g (d :: r) = some (fields, r2)) :
    parseValue (g + 1) ('\x7b' :: t) = some (Json.obj fields, r2) := by
  simp only [parseValue,
    show (('\x7b' : Char) == '\x7b') = true from rfl, if_true,
    hskip, hd, Bool.false_eq_true, if_false, hm]

theorem parseMembers_last (g : Nat) (key rest2 rmid r4 : List Char)
    (v : Json)
    (hval : parseValue g (skipWs rest2) = some (v, rmid))
    (hskip : skipWs rmid = '\x7d' :: r4) :
    parseMembers (g + 1) ('"' :: (jsonEscape key ++ '"' :: (':' :: rest2))) =
      some ([(key, v)], r4) := by
  simp only [parseMembers,
    show (('"' : Char) == '"') = true from rfl, if_true,
    parseStringRest_call,
    show skipWs (':' :: rest2) = ':' :: rest2 from rfl,
    show ((':' : Char) == ':') = true from rfl,
    hval, hskip,
    show (('\x7d' : Char) == ',') = false from rfl,
    show (('\x7d' : Char) == '\x7d') = true from rfl,
    Bool.false_eq_true, if_false]

theorem parseMembers_cons (g : Nat) (key rest2 rmid next rout : List Char)
    (v : Json) (fields : List (List Char × Json))
    (hval : parseValue g (skipWs rest2) = some (v, rmid))
    (hskip : skipWs rmid = ',' :: next)
    (hrec : parseMembers g (skipWs next) = some (fields, rout)) :
    parseMembers (g + 1) ('"' :: (jsonEscape key ++ '"' :: (':' :: rest2))) =
      some ((key, v) :: fields, rout) := by
  simp only [parseMembers,
    show (('"' : Char) == '"') = true from rfl, if_true,
    parseStringRest_call,
    show skipWs (':' :: rest2) = ':' :: rest2 from rfl,
    show ((':' : Char) == ':') = true from rfl,
    hval, hskip,
    show ((',' : Char) == ',') = true from rfl,
    hrec]

theorem parseValue_one (g : Nat) (X : List Char) :
    parseValue (g + 1) ('1' :: ',' :: X) = some (Json.num 1 0, ',' :: X) := by
  simp only [parseValue,
    show (('1' : Char) == '\x7b') = false from rfl,
    show (('1' : Char) == '[') = false from rfl,
    show (('1' : Char) == '"') = false from rfl,
    show (('1' : Char) == 't') = false from rfl,
    show (('1' : Char) == 'f') = false from rfl,
    show (('1' : Char) == 'n') = false from rfl,
    show (('1' : Char) == '-') = false from rfl,
    show isDigitChar '1' = true from rfl,
    Bool.false_eq_true, if_false, Bool.false_or, if_true]
  norm_num [parseNumberRest, parseFracPart, parseExpPart, digitsToNat,
    digitVal, List.takeWhile_cons, List.dropWhile_cons,
    show (('1' : Char) == '-') = false from rfl,
    show (('1' : Char) == '0') = false from rfl,
    show ((',' : Char) == '.') = false from rfl,
    show isDigitChar '1' = true from rfl,
    show isDigitChar ',' = false from rfl,
    show (('1' : Char).toNat - 48) = 1 from rfl]
  simp [show ¬((',' : Char) = 'e' ∨ (',' : Char) = 'E') from by decide]

/-- The `Json` value `JSON.parse` produces on the encoder's output
(without `from`/`to`). -/
def encJson (subject body : List Char) (now : Nat) : Json :=
  Json.obj [("v".data, Json.num 1 0), ("type".data, Json.str "email".data),
    ("subject".data, Json.str (jsTrimChars subject)), ("body".data, Json.str body), ("sentAt".data, Json.num (now : Int) 0)]

theorem parseValue_encodeChars (subject body : List Char) (now : Nat)
    (fuel : Nat) (hf : 12 ≤ fuel) :
    parseValue fuel (encodeChars subject body none none now) =
      some (encJson subject body now, []) := by
  obtain ⟨f, rfl⟩ : ∃ f, fuel = f + 12 := ⟨fuel - 12, by omega⟩
  have h5 : parseMembers ((f + 6) + 1)
      ('\"' :: (jsonEscape "sentAt".data ++
        '\"' :: (':' :: (natDigits now ++ ['\x7d'])))) =
      some ([("sentAt".data, Json.num (now : Int) 0)], []) :=
    parseMembers_last (f + 6) "sentAt".data (natDigits now ++ ['\x7d'])
      ['\x7d'] [] (Json.num (now : Int) 0)
      (by rw [skipWs_natDigits now ['\x7d']]
          exact parseValue_natDigits now (f + 5) [])
      rfl
  have h4 : parseMembers ((f + 7) + 1)
      ('\"' :: (jsonEscape "body".data ++ '\"' :: (':' ::
        ('\"' :: (jsonEscape body ++ '\"' :: (',' :: ('\"' :: 's' :: 'e' :: 'n' :: 't' :: 'A' :: 't' :: '\"' :: ':' :: (natDigits now ++ ['\x7d'])))))))) =
      some ([("body".data, Json.str body), ("sentAt".data, Json.num (now : Int) 0)], []) :=
    parseMembers_cons (f + 7) "body".data
      ('\"' :: (jsonEscape body ++ '\"' :: (',' :: ('\"' :: 's' :: 'e' :: 'n' :: 't' :: 'A' :: 't' :: '\"' :: ':' :: (natDigits now ++ ['\x7d'])))))
      (',' :: ('\"' :: 's' :: 'e' :: 'n' :: 't' :: 'A' :: 't' :: '\"' :: ':' :: (natDigits now ++ ['\x7d']))) ('\"' :: 's' :: 'e' :: 'n' :: 't' :: 'A' :: 't' :: '\"' :: ':' :: (natDigits now ++ ['\x7d'])) [] (Json.str body)
      [("sentAt".data, Json.num (now : Int) 0)]
      (parseValue_strValue (f + 6) body (',' :: ('\"' :: 's' :: 'e' :: 'n' :: 't' :: 'A' :: 't' :: '\"' :: ':' :: (natDigits now ++ ['\x7d']))))
      rfl
      h5
  have h3 : parseMembers ((f + 8) + 1)
      ('\"' :: (jsonEscape "subject".data ++ '\"' :: (':' ::
        ('\"' :: (jsonEscape (jsTrimChars subject) ++
          '\"' :: (',' :: ('\"' :: 'b' :: 'o' :: 'd' :: 'y' :: '\"' :: ':' :: '\"' :: (jsonEscape body ++ '\"' :: ',' :: ('\"' :: 's' :: 'e' :: 'n' :: 't' :: 'A' :: 't' :: '\"' :: ':' :: (natDigits now ++ ['\x7d'])))))))))) =
      some ([("subject".data, Json.str (jsTrimChars subject)), ("body".data, Json.str body), ("sentAt".data, Json.num (now : Int) 0)], []) :=
    parseMembers_cons (f + 8) "subject".data
      ('\"' :: (jsonEscape (jsTrimChars subject) ++ '\"' :: (',' :: ('\"' :: 'b' :: 'o' :: 'd' :: 'y' :: '\"' :: ':' :: '\"' :: (jsonEscape body ++ '\"' :: ',' :: ('\"' :: 's' :: 'e' :: 'n' :: 't' :: 'A' :: 't' :: '\"' :: ':' :: (natDigits now ++ ['\x7d'])))))))
      (',' :: ('\"' :: 'b' :: 'o' :: 'd' :: 'y' :: '\"' :: ':' :: '\"' :: (jsonEscape body ++ '\"' :: ',' :: ('\"' :: 's' :: 'e' :: 'n' :: 't' :: 'A' :: 't' :: '\"' :: ':' :: (natDigits now ++ ['\x7d']))))) ('\"' :: 'b' :: 'o' :: 'd' :: 'y' :: '\"' :: ':' :: '\"' :: (jsonEscape body ++ '\"' :: ',' :: ('\"' :: 's' :: 'e' :: 'n' :: 't' :: 'A' :: 't' :: '\"' :: ':' :: (natDigits now ++ ['\x7d'])))) [] (Json.str (jsTrimChars subject))
      [("body".data, Json.str body), ("sentAt".data, Json.num (now : Int) 0)]
      (parseValue_strValue (f + 7) (jsTrimChars subject) (',' :: ('\"' :: 'b' :: 'o' :: 'd' :: 'y' :: '\"' :: ':' :: '\"' :: (jsonEscape body ++ '\"' :: ',' :: ('\"' :: 's' :: 'e' :: 'n' :: 't' :: 'A' :: 't' :: '\"' :: ':' :: (natDigits now ++ ['\x7d']))))))
      rfl
      h4
  have h2 : parseMembers ((f + 9) + 1)
      ('\"' :: (jsonEscape "type".data ++ '\"' :: (':' ::
        ('\"' :: (jsonEscape "email".data ++ '\"' :: (',' :: ('\"' :: 's' :: 'u' :: 'b' :: 'j' :: 'e' :: 'c' :: 't' :: '\"' :: ':' :: '\"' :: (jsonEscape (jsTrimChars subject) ++ '\"' :: ',' :: ('\"' :: 'b' :: 'o' :: 'd' :: 'y' :: '\"' :: ':' :: '\"' :: (jsonEscape body ++ '\"' :: ',' :: ('\"' :: 's' :: 'e' :: 'n' :: 't' :: 'A' :: 't' :: '\"' :: ':' :: (natDigits now ++ ['\x7d'])))))))))))) =
      some ([("type".data, Json.str "email".data), ("subject".data, Json.str (jsTrimChars subject)), ("body".data, Json.str body), ("sentAt".data, Json.num (now : Int) 0)], []) :=
    parseMembers_cons (f + 9) "type".data
      ('\"' :: (jsonEscape "email".data ++ '\"' :: (',' :: ('\"' :: 's' :: 'u' :: 'b' :: 'j' :: 'e' :: 'c' :: 't' :: '\"' :: ':' :: '\"' :: (jsonEscape (jsTrimChars subject) ++ '\"' :: ',' :: ('\"' :: 'b' :: 'o' :: 'd' :: 'y' :: '\"' :: ':' :: '\"' :: (jsonEscape body ++ '\"' :: ',' :: ('\"' :: 's' :: 'e' :: 'n' :: 't' :: 'A' :: 't' :: '\"' :: ':' :: (natDigits now ++ ['\x7d'])))))))))
      (',' :: ('\"' :: 's' :: 'u' :: 'b' :: 'j' :: 'e' :: 'c' :: 't' :: '\"' :: ':' :: '\"' :: (jsonEscape (jsTrimChars subject) ++ '\"' :: ',' :: ('\"' :: 'b' :: 'o' :: 'd' :: 'y' :: '\"' :: ':' :: '\"' :: (jsonEscape body ++ '\"' :: ',' :: ('\"' :: 's' :: 'e' :: 'n' :: 't' :: 'A' :: 't' :: '\"' :: ':' :: (natDigits now ++ ['\x7d']))))))) ('\"' :: 's' :: 'u' :: 'b' :: 'j' :: 'e' :: 'c' :: 't' :: '\"' :: ':' :: '\"' :: (jsonEscape (jsTrimChars subject) ++ '\"' :: ',' :: ('\"' :: 'b' :: 'o' :: 'd' :: 'y' :: '\"' :: ':' :: '\"' :: (jsonEscape body ++ '\"' :: ',' :: ('\"' :: 's' :: 'e' :: 'n' :: 't' :: 'A' :: 't' :: '\"' :: ':' :: (natDigits now ++ ['\x7d'])))))) [] (Json.str "email".data)
      [("subject".data, Json.str (jsTrimChars subject)), ("body".data, Json.str body), ("sentAt".data, Json.num (now : Int) 0)]
      (parseValue_strValue (f + 8) "email".data (',' :: ('\"' :: 's' :: 'u' :: 'b' :: 'j' :: 'e' :: 'c' :: 't' :: '\"' :: ':' :: '\"' :: (jsonEscape (jsTrimChars subject) ++ '\"' :: ',' :: ('\"' :: 'b' :: 'o' :: 'd' :: 'y' :: '\"' :: ':' :: '\"' :: (jsonEscape body ++ '\"' :: ',' :: ('\"' :: 's' :: 'e' :: 'n' :: 't' :: 'A' :: 't' :: '\"' :: ':' :: (natDigits now ++ ['\x7d']))))))))
      rfl
      h3
  have h1 : parseMembers ((f + 10) + 1)
      ('\"' :: (jsonEscape "v".data ++ '\"' :: (':' ::
        ('1' :: ',' :: ('\"' :: 't' :: 'y' :: 'p' :: 'e' :: '\"' :: ':' :: '\"' :: 'e' :: 'm' :: 'a' :: 'i' :: 'l' :: '\"' :: ',' :: ('\"' :: 's' :: 'u' :: 'b' :: 'j' :: 'e' :: 'c' :: 't' :: '\"' :: ':' :: '\"' :: (jsonEscape (jsTrimChars subject) ++ '\"' :: ',' :: ('\"' :: 'b' :: 'o' :: 'd' :: 'y' :: '\"' :: ':' :: '\"' :: (jsonEscape body ++ '\"' :: ',' :: ('\"' :: 's' :: 'e' :: 'n' :: 't' :: 'A' :: 't' :: '\"' :: ':' :: (natDigits now ++ ['\x7d']))))))))))) =
      some ([("v".data, Json.num 1 0), ("type".data, Json.str "email".data), ("subject".data, Json.str (jsTrimChars subject)), ("body".data, Json.str body), ("sentAt".data, Json.num (now : Int) 0)], []) :=
    parseMembers_cons (f + 10) "v".data
      ('1' :: ',' :: ('\"' :: 't' :: 'y' :: 'p' :: 'e' :: '\"' :: ':' :: '\"' :: 'e' :: 'm' :: 'a' :: 'i' :: 'l' :: '\"' :: ',' :: ('\"' :: 's' :: 'u' :: 'b' :: 'j' :: 'e' :: 'c' :: 't' :: '\"' :: ':' :: '\"' :: (jsonEscape (jsTrimChars subject) ++ '\"' :: ',' :: ('\"' :: 'b' :: 'o' :: 'd' :: 'y' :: '\"' :: ':' :: '\"' :: (jsonEscape body ++ '\"' :: ',' :: ('\"' :: 's' :: 'e' :: 'n' :: 't' :: 'A' :: 't' :: '\"' :: ':' :: (natDigits now ++ ['\x7d']))))))))
      (',' :: ('\"' :: 't' :: 'y' :: 'p' :: 'e' :: '\"' :: ':' :: '\"' :: 'e' :: 'm' :: 'a' :: 'i' :: 'l' :: '\"' :: ',' :: ('\"' :: 's' :: 'u' :: 'b' :: 'j' :: 'e' :: 'c' :: 't' :: '\"' :: ':' :: '\"' :: (jsonEscape (jsTrimChars subject) ++ '\"' :: ',' :: ('\"' :: 'b' :: 'o' :: 'd' :: 'y' :: '\"' :: ':' :: '\"' :: (jsonEscape body ++ '\"' :: ',' :: ('\"' :: 's' :: 'e' :: 'n' :: 't' :: 'A' :: 't' :: '\"' :: ':' :: (natDigits now ++ ['\x7d'])))))))) ('\"' :: 't' :: 'y' :: 'p' :: 'e' :: '\"' :: ':' :: '\"' :: 'e' :: 'm' :: 'a' :: 'i' :: 'l' :: '\"' :: ',' :: ('\"' :: 's' :: 'u' :: 'b' :: 'j' :: 'e' :: 'c' :: 't' :: '\"' :: ':' :: '\"' :: (jsonEscape (jsTrimChars subject) ++ '\"' :: ',' :: ('\"' :: 'b' :: 'o' :: 'd' :: 'y' :: '\"' :: ':' :: '\"' :: (jsonEscape body ++ '\"' :: ',' :: ('\"' :: 's' :: 'e' :: 'n' :: 't' :: 'A' :: 't' :: '\"' :: ':' :: (natDigits now ++ ['\x7d']))))))) [] (Json.num 1 0)
      [("type".data, Json.str "email".data), ("subject".data, Json.str (jsTrimChars subject)), ("body".data, Json.str body), ("sentAt".data, Json.num (now : Int) 0)]
      (parseValue_one (f + 9) ('\"' :: 't' :: 'y' :: 'p' :: 'e' :: '\"' :: ':' :: '\"' :: 'e' :: 'm' :: 'a' :: 'i' :: 'l' :: '\"' :: ',' :: ('\"' :: 's' :: 'u' :: 'b' :: 'j' :: 'e' :: 'c' :: 't' :: '\"' :: ':' :: '\"' :: (jsonEscape (jsTrimChars subject) ++ '\"' :: ',' :: ('\"' :: 'b' :: 'o' :: 'd' :: 'y' :: '\"' :: ':' :: '\"' :: (jsonEscape body ++ '\"' :: ',' :: ('\"' :: 's' :: 'e' :: 'n' :: 't' :: 'A' :: 't' :: '\"' :: ':' :: (natDigits now ++ ['\x7d']))))))))
      rfl
      h2
  have htop : parseValue ((f + 11) + 1)
      ('\x7b' :: ('\"' :: 'v' :: '\"' :: ':' :: '1' :: ',' :: ('\"' :: 't' :: 'y' :: 'p' :: 'e' :: '\"' :: ':' :: '\"' :: 'e' :: 'm' :: 'a' :: 'i' :: 'l' :: '\"' :: ',' :: ('\"' :: 's' :: 'u' :: 'b' :: 'j' :: 'e' :: 'c' :: 't' :: '\"' :: ':' :: '\"' :: (jsonEscape (jsTrimChars subject) ++ '\"' :: ',' :: ('\"' :: 'b' :: 'o' :: 'd' :: 'y' :: '\"' :: ':' :: '\"' :: (jsonEscape body ++ '\"' :: ',' :: ('\"' :: 's' :: 'e' :: 'n' :: 't' :: 'A' :: 't' :: '\"' :: ':' :: (natDigits now ++ ['\x7d']))))))))) =
      some (Json.obj [("v".data, Json.num 1 0), ("type".data, Json.str "email".data), ("subject".data, Json.str (jsTrimChars subject)), ("body".data, Json.str body), ("sentAt".data, Json.num (now : Int) 0)],
        []) :=
    parseValue_objStep (f + 11) ('\"' :: 'v' :: '\"' :: ':' :: '1' :: ',' :: ('\"' :: 't' :: 'y' :: 'p' :: 'e' :: '\"' :: ':' :: '\"' :: 'e' :: 'm' :: 'a' :: 'i' :: 'l' :: '\"' :: ',' :: ('\"' :: 's' :: 'u' :: 'b' :: 'j' :: 'e' :: 'c' :: 't' :: '\"' :: ':' :: '\"' :: (jsonEscape (jsTrimChars subject) ++ '\"' :: ',' :: ('\"' :: 'b' :: 'o' :: 'd' :: 'y' :: '\"' :: ':' :: '\"' :: (jsonEscape body ++ '\"' :: ',' :: ('\"' :: 's' :: 'e' :: 'n' :: 't' :: 'A' :: 't' :: '\"' :: ':' :: (natDigits now ++ ['\x7d'])))))))) '\"'
      ('v' :: '\"' :: ':' :: '1' :: ',' :: ('\"' :: 't' :: 'y' :: 'p' :: 'e' :: '\"' :: ':' :: '\"' :: 'e' :: 'm' :: 'a' :: 'i' :: 'l' :: '\"' :: ',' :: ('\"' :: 's' :: 'u' :: 'b' :: 'j' :: 'e' :: 'c' :: 't' :: '\"' :: ':' :: '\"' :: (jsonEscape (jsTrimChars subject) ++ '\"' :: ',' :: ('\"' :: 'b' :: 'o' :: 'd' :: 'y' :: '\"' :: ':' :: '\"' :: (jsonEscape body ++ '\"' :: ',' :: ('\"' :: 's' :: 'e' :: 'n' :: 't' :: 'A' :: 't' :: '\"' :: ':' :: (natDigits now ++ ['\x7d'])))))))) []
      [("v".data, Json.num 1 0), ("type".data, Json.str "email".data), ("subject".data, Json.str (jsTrimChars subject)), ("body".data, Json.str body), ("sentAt".data, Json.num (now : Int) 0)]
      rfl rfl h1
  show parseValue (f + 12)
      ('\x7b' :: (encodeInner subject body none none now ++ ['\x7d'])) = _
  rw [encodeInner_eq]
  simp only [List.cons_append, List.append_assoc]
  exact htop

theorem jsTrimChars_braced (mid : List Char) :
    jsTrimChars ('\x7b' :: (mid ++ ['\x7d'])) =
      '\x7b' :: (mid ++ ['\x7d']) := by
  unfold jsTrimChars
  rw [List.dropWhile_cons]
  simp only [show isJsWhitespace '\x7b' = false from by decide,
    Bool.false_eq_true, if_false]
  rw [show ('\x7b' :: (mid ++ ['\x7d'])).reverse =
      '\x7d' :: (mid.reverse ++ ['\x7b']) from by simp]
  rw [List.dropWhile_cons]
  simp only [show isJsWhitespace '\x7d' = false from by decide,
    Bool.false_eq_true, if_false]
  simp

theorem encodeChars_length (subject body : List Char) (now : Nat) :
    12 ≤ (encodeChars subject body none none now).length + 1 := by
  have h : 30 ≤ (encodeInner subject body none none now).length := by
    rw [encodeInner_eq]
    simp only [List.length_cons, List.length_append]
    omega
  show 12 ≤ ('\x7b' :: (encodeInner subject body none none now ++
    ['\x7d'])).length + 1
  simp only [List.length_cons, List.length_append]
  omega

theorem parseJson_encodeChars (subject body : List Char) (now : Nat) :
    parseJson (encodeChars subject body none none now) =
      some (encJson subject body now) := by
  unfold parseJson
  rw [show skipWs (encodeChars subject body none none now) =
      encodeChars subject body none none now from rfl]
  rw [parseValue_encodeChars subject body now _
    (encodeChars_length subject body now)]
  rfl

/-- C6: for every subject and body string (and every current time stamp),
decoding an encoded envelope round-trips: the decoder recognizes the
encoder's own output as an email whose subject is the trimmed subject and
whose body is preserved verbatim. -/
theorem encode_decode_roundtrip (subject body : String) (now : Nat) :
    decodeXmtpEmail (encodeXmtpEmailV1 subject body none none now) =
      DecodedXmtpEmail.email
        { subject := jsTrim subject, body := body, fromAddr := none,
          toAddr := none, sentAt := some ((now : Int), 0) } := by
  unfold decodeXmtpEmail
  rw [show (encodeXmtpEmailV1 subject body none none now).data =
      encodeChars subject.data body.data none none now from rfl]
  rw [show jsTrimChars (encodeChars subject.data body.data none none now) =
      encodeChars subject.data body.data none none now from
    jsTrimChars_braced (encodeInner subject.data body.data none none now)]
  simp only [show (encodeChars subject.data body.data none none
      now).isEmpty = false from rfl, Bool.false_eq_true, if_false]
  rw [parseJson_encodeChars]
  rfl
